import Mathlib

/-!
Shallow embedding of the engineering core of the RiceHolisticGarden
repository: the firmware provisioning orchestrator (`src/flash.c`) and the
telemetry and command gateway (`src/server.c`).

C character buffers are modelled as `List Char` (`CStr`); machine floats
read by `sscanf` are modelled as exact rationals (the accepted range check
`0.0f <= v <= 5.0f` is exact at these bounds); the fixed 64-slot log array
of a session is a 64-element list together with the `log_head`/`log_count`
cursors, exactly as in `struct mac_ip_map_entry`.
-/

/-- C strings as character lists (no interior NUL). -/
abbrev CStr := List Char

/-- `isspace` in the default C locale: space, \t, \n, vertical tab, form
feed, \r. -/
def isSpaceC (c : Char) : Bool :=
  c = ' ' || c = '\t' || c = '\n' || c = Char.ofNat 11 || c = Char.ofNat 12 || c = '\r'

/-- `c >= '0' && c <= '9'`. -/
def isDigitC (c : Char) : Bool := '0' ≤ c && c ≤ '9'

/-- The hex-digit test of `extract_mac_from_string` (src/flash.c line 57):
`(c >= '0' && c <= '9') || (c >= 'a' && c <= 'f') || (c >= 'A' && c <= 'F')`. -/
def isHexC (c : Char) : Bool :=
  ('0' ≤ c && c ≤ '9') || ('a' ≤ c && c ≤ 'f') || ('A' ≤ c && c ≤ 'F')

/-- `tolower` over the ASCII range (default C locale). -/
def lowerC (c : Char) : Char :=
  if 'A' ≤ c && c ≤ 'Z' then Char.ofNat (c.toNat + 32) else c

/-- `strcasecmp(a, b) == 0`. -/
def strCaseEq (a b : CStr) : Bool := a.map lowerC = b.map lowerC

/-- `strncpy(dst, src, n)` followed by a forced NUL terminator: the stored
string is the first `n` characters of the source. -/
def truncTo (n : Nat) (l : CStr) : CStr := l.take n

/-! ## Identifier extraction (src/flash.c lines 48-67) -/

/-- The inner window test of `extract_mac_from_string` (src/flash.c lines
52-58): the candidate must be 17 characters long (i.e. `strlen(p) >= 17`),
with `':'` at the indices `i` with `i % 3 == 2` (namely 2, 5, 8, 11, 14)
and a hexadecimal digit everywhere else. -/
def macWindowOk (w : CStr) : Bool :=
  w.length = 17 && (List.range 17).all (fun i =>
    let c := w.getD i ' '
    if i % 3 = 2 then c = ':' else isHexC c)

/-- `extract_mac_from_string` (src/flash.c lines 48-67): scan the suffixes
left to right and return the first 17-character window that passes
`macWindowOk`, case preserved.  The two call sites always pass an output
buffer of 32 bytes, so the `out_len > 17` branch always succeeds and is
omitted from the model. -/
def extract_mac_from_string : CStr → Option CStr
  | [] => none
  | c :: cs =>
    if macWindowOk ((c :: cs).take 17) then some ((c :: cs).take 17)
    else extract_mac_from_string cs

/-- A valid identifier window starts at index `i` of `l`. -/
def macAt (l : CStr) (i : Nat) : Prop := macWindowOk ((l.drop i).take 17) = true

instance (l : CStr) (i : Nat) : Decidable (macAt l i) := by
  unfold macAt; infer_instance

/-! ## `sscanf` conversions used by src/server.c -/

/-- Leading-whitespace skip performed by most `scanf` conversions. -/
def skipWs : CStr → CStr
  | [] => []
  | c :: cs => if isSpaceC c then skipWs cs else c :: cs

/-- Body of a `%Ns` conversion: greedily read at most `n` characters, up to
whitespace. -/
def takeToken : Nat → CStr → CStr × CStr
  | _, [] => ([], [])
  | 0, l => ([], l)
  | n + 1, c :: cs =>
    if isSpaceC c then ([], c :: cs)
    else
      let p := takeToken n cs
      (c :: p.1, p.2)

/-- `%Ns`: skip whitespace, then read between 1 and `n` non-whitespace
characters (zero characters is a matching failure). -/
def scanS (n : Nat) (l : CStr) : Option (CStr × CStr) :=
  let p := takeToken n (skipWs l)
  if p.1 = [] then none else some p

/-- Body of a `%N[^,]` conversion: up to `n` characters other than `','`,
with no whitespace skip and no termination at whitespace. -/
def takeNoComma : Nat → CStr → CStr × CStr
  | _, [] => ([], [])
  | 0, l => ([], l)
  | n + 1, c :: cs =>
    if c = ',' then ([], c :: cs)
    else
      let p := takeNoComma n cs
      (c :: p.1, p.2)

/-- Optional sign of a numeric conversion; `true` means negative. -/
def parseSign : CStr → Bool × CStr
  | '-' :: cs => (true, cs)
  | '+' :: cs => (false, cs)
  | l => (false, l)

/-- Greedy run of decimal digits. -/
def takeDigits : CStr → CStr × CStr
  | [] => ([], [])
  | c :: cs =>
    if isDigitC c then
      let p := takeDigits cs
      (c :: p.1, p.2)
    else ([], c :: cs)

/-- Numeric value of a digit run. -/
def digitsVal (ds : CStr) : Nat :=
  ds.foldl (fun a c => 10 * a + (c.toNat - '0'.toNat)) 0

/-- Optional fractional part `.` followed by a digit run. -/
def parseFrac : CStr → CStr × CStr
  | '.' :: r => takeDigits r
  | l => ([], l)

/-- Optional exponent part of a `%f` field.  If the `e`/`E` marker is
present it must be followed by a well-formed exponent, otherwise the whole
conversion fails (`scanf` cannot push the consumed marker back). -/
def parseExp : CStr → Option (Int × CStr)
  | [] => some (0, [])
  | c :: cs =>
    if c = 'e' || c = 'E' then
      let s := parseSign cs
      let d := takeDigits s.2
      if d.1 = [] then none
      else some (if s.1 then -(digitsVal d.1 : Int) else (digitsVal d.1 : Int), d.2)
    else some (0, c :: cs)

/-- The decimal field accepted by a `%f` conversion after its whitespace
skip: `[+-]? digits [. digits]? ([eE][+-]?digits)?`, with at least one
digit in the significand.  Returns the exact rational value
`± (whole.frac) * 10 ^ exp` of the longest accepted field — built as a
single `mkRat` over integer arithmetic — and the remaining input (the C
code stores the result in a `float`; its rounding is not modelled). -/
def parseFloat (l : CStr) : Option (ℚ × CStr) :=
  let s := parseSign l
  let w := takeDigits s.2
  let f := parseFrac w.2
  if w.1 = [] ∧ f.1 = [] then none
  else
    match parseExp f.2 with
    | none => none
    | some (e, rest) =>
      let base : Nat := digitsVal w.1 * 10 ^ f.1.length + digitsVal f.1
      let num : Nat := base * 10 ^ e.toNat
      let den : Nat := 10 ^ f.1.length * 10 ^ (-e).toNat
      some (mkRat (if s.1 then -(num : Int) else (num : Int)) den, rest)

/-- A full `%f` conversion: whitespace skip then the decimal field. -/
def scanF (l : CStr) : Option (ℚ × CStr) := parseFloat (skipWs l)

/-- A `%d` conversion: whitespace skip, optional sign, digit run. -/
def scanInt (l : CStr) : Option (Int × CStr) :=
  let l1 := skipWs l
  let s := parseSign l1
  let d := takeDigits s.2
  if d.1 = [] then none
  else some (if s.1 then -(digitsVal d.1 : Int) else (digitsVal d.1 : Int), d.2)

/-- Literal characters of a `scanf` format: each must match exactly. -/
def matchLit : CStr → CStr → Option CStr
  | [], l => some l
  | _ :: _, [] => none
  | p :: ps, c :: cs => if c = p then matchLit ps cs else none

/-- `sscanf(buf, "%31s %f", mac, &moistf) == 2` (src/server.c line 204):
the space-separated telemetry shape. -/
def parseSpaceShape (buf : CStr) : Option (CStr × ℚ) :=
  match scanS 31 buf with
  | none => none
  | some (tok, rest) =>
    match scanF rest with
    | none => none
    | some (v, _) => some (tok, v)

/-- `sscanf(buf, "%31[^,],%f", mac, &moistf) == 2` (src/server.c line 238):
the comma-separated telemetry shape. -/
def parseCsvShape (buf : CStr) : Option (CStr × ℚ) :=
  let p := takeNoComma 31 buf
  if p.1 = [] then none
  else
    match p.2 with
    | ',' :: rest =>
      match scanF rest with
      | none => none
      | some (v, _) => some (p.1, v)
    | _ => none

/-- `sscanf(buf, "%*[^C]CONTROL_PIN (D%d) state: %31s", &pin, statebuf) == 2`
(src/server.c lines 148 and 179).  The suppressed `%*[^C]` must consume at
least one character, so a line that starts with `'C'` does not match.
Whitespace in the format skips any run of input whitespace. -/
def parseControlPinReport (buf : CStr) : Option (Int × CStr) :=
  let pre := buf.takeWhile (fun c => c ≠ 'C')
  if pre = [] then none
  else
    match matchLit "CONTROL_PIN".toList (buf.dropWhile (fun c => c ≠ 'C')) with
    | none => none
    | some r1 =>
      match matchLit "(D".toList (skipWs r1) with
      | none => none
      | some r2 =>
        match scanInt r2 with
        | none => none
        | some (pin, r3) =>
          match r3 with
          | ')' :: r4 =>
            match matchLit "state:".toList (skipWs r4) with
            | none => none
            | some r5 =>
              match scanS 31 r5 with
              | none => none
              | some (sb, _) => some (pin, sb)
          | _ => none

/-- `sscanf(buf, "CMD: set D%d = %d", &pin2, &val) == 2`
(src/server.c line 156). -/
def parseCmdSet (buf : CStr) : Option (Int × Int) :=
  match matchLit "CMD:".toList buf with
  | none => none
  | some r1 =>
    match matchLit "set".toList (skipWs r1) with
    | none => none
    | some r2 =>
      match matchLit "D".toList (skipWs r2) with
      | none => none
      | some r3 =>
        match scanInt r3 with
        | none => none
        | some (pin, r4) =>
          match matchLit "=".toList (skipWs r4) with
          | none => none
          | some r5 => (scanInt r5).map fun p => (pin, p.1)

/-- `sscanf(buf, "CMD D%d %d", &pin2, &val) == 2` (src/server.c line 156). -/
def parseCmdD (buf : CStr) : Option (Int × Int) :=
  match matchLit "CMD".toList buf with
  | none => none
  | some r1 =>
    match matchLit "D".toList (skipWs r1) with
    | none => none
    | some r2 =>
      match scanInt r2 with
      | none => none
      | some (pin, r3) => (scanInt r3).map fun p => (pin, p.1)

/-! ## Device session registry (src/server.c lines 24-74) -/

/-- A UDP source address: the `sin_addr`/`sin_port` pair of
`struct sockaddr_in`.  Address-based attribution compares `ip` only. -/
structure Addr where
  ip : Nat
  port : Nat
deriving DecidableEq

def SERVER_MAP_MAX : Nat := 32
def SERVER_LOG_LINES : Nat := 64

/-- One slot of the file-scope `maps` table (src/server.c lines 31-41).
`logs` is the fixed 64-slot array; `liveText` carries the
`live_text`/`live_len` pair as one string. -/
structure MapEntry where
  mac : CStr
  addr : Addr
  logs : List CStr
  logHead : Nat
  logCount : Nat
  liveText : CStr
  lastOutputState : Int
deriving DecidableEq

/-- A zero-initialized slot of the static `maps` array: empty strings,
address 0, `last_output_state = 0`.  Slots are used in order and never
recycled, so a slot still holds these values when it is first claimed. -/
instance : Inhabited MapEntry :=
  ⟨⟨[], ⟨0, 0⟩, List.replicate SERVER_LOG_LINES [], 0, 0, [], 0⟩⟩

/-- The registry is the prefix of `maps` holding the `maps_count` created
entries, in creation order. -/
abbrev Registry := List MapEntry

/-- `append_live_text` (src/server.c lines 50-60): overwrite the live text
with the most recent line, truncated to `SERVER_LIVE_BUFSZ - 1 = 8191`
bytes. -/
def append_live_text (e : MapEntry) (line : CStr) : MapEntry :=
  { e with liveText := truncTo 8191 line }

/-- The body of `add_log_to_entry` (src/server.c lines 63-74) once its index
guard has passed: store the line truncated to `SERVER_LOG_LINE_LEN - 1 = 127`
bytes at `log_head`, advance the head modulo 64, saturate the count at 64,
and overwrite the live text. -/
def addLogLine (e : MapEntry) (line : CStr) : MapEntry :=
  append_live_text
    { e with
      logs := e.logs.set e.logHead (truncTo 127 line),
      logHead := (e.logHead + 1) % SERVER_LOG_LINES,
      logCount := if e.logCount < SERVER_LOG_LINES then e.logCount + 1 else e.logCount }
    line

/-- First index satisfying a predicate, as the lookup loops of src/server.c
compute it. -/
def findIdxP (p : α → Bool) : List α → Option Nat
  | [] => none
  | a :: l => if p a then some 0 else (findIdxP p l).map (· + 1)

/-- In-place update of one slot. -/
def modifyIdx (f : α → α) : Nat → List α → List α
  | _, [] => []
  | 0, a :: l => f a :: l
  | n + 1, a :: l => a :: modifyIdx f n l

/-- The actuator-state value after examining line `buf` against the two
recognized report and acknowledgement formats (src/server.c lines 145-160):
a `CONTROL_PIN (Dn) state: HIGH|LOW` report, else a `CMD: set Dn = v` or
`CMD Dn v` acknowledgement; anything else leaves the state unchanged. -/
def outputStateAfter (buf : CStr) (old : Int) : Int :=
  match parseControlPinReport buf with
  | some (pin, sb) =>
    if 0 ≤ pin then
      if strCaseEq sb "HIGH".toList then 1
      else if strCaseEq sb "LOW".toList then 0
      else old
    else old
  | none =>
    match parseCmdSet buf with
    | some (pin2, v) => if 0 ≤ pin2 ∧ 0 ≤ v then (if v ≠ 0 then 1 else 0) else old
    | none =>
      match parseCmdD buf with
      | some (pin2, v) => if 0 ≤ pin2 ∧ 0 ≤ v then (if v ≠ 0 then 1 else 0) else old
      | none => old

/-- The actuator-state value used on the address-attribution path of a full
table (src/server.c lines 178-184): there only the `CONTROL_PIN` report
format is recognized, not the `CMD` acknowledgements. -/
def outputStateAfterCP (buf : CStr) (old : Int) : Int :=
  match parseControlPinReport buf with
  | some (pin, sb) =>
    if 0 ≤ pin then
      if strCaseEq sb "HIGH".toList then 1
      else if strCaseEq sb "LOW".toList then 0
      else old
    else old
  | none => old

/-- Apply `outputStateAfter` to an entry. -/
def updateOutputState (buf : CStr) (e : MapEntry) : MapEntry :=
  { e with lastOutputState := outputStateAfter buf e.lastOutputState }

/-- Apply `outputStateAfterCP` to an entry. -/
def updateOutputStateCP (buf : CStr) (e : MapEntry) : MapEntry :=
  { e with lastOutputState := outputStateAfterCP buf e.lastOutputState }

/-- A fresh entry as created by the diagnostic pass (src/server.c lines
163-170) and by the space-shape telemetry pass (lines 220-230): identifier
(truncated by `strncpy` to 31 bytes where relevant), source address, zeroed
log state, and `last_output_state = -1`. -/
def freshEntry (mac : CStr) (src : Addr) : MapEntry :=
  { (default : MapEntry) with mac := mac, addr := src, lastOutputState := -1 }

/-- The diagnostic-attribution pass of `server_thread_fn` (src/server.c
lines 131-197).  The first whitespace token is read with `%63s`; a token
containing `':'` is treated as identifier-shaped.  On the creation path the
call `add_log_to_entry(maps_count, buf)` (line 168) is a no-op because the
guard `idx >= maps_count` fires before `maps_count` is incremented, so a
freshly created entry holds no log line; the slot's zero-initialized
fields are kept except those assigned at lines 164-169. -/
def diagPass (st : Registry) (src : Addr) (buf : CStr) : Registry :=
  match scanS 63 buf with
  | none => st
  | some (ft, _) =>
    if ft.contains ':' then
      match findIdxP (fun e => strCaseEq e.mac ft) st with
      | some i => modifyIdx (fun e => updateOutputState buf (addLogLine e buf)) i st
      | none =>
        if st.length < SERVER_MAP_MAX then
          st ++ [freshEntry (truncTo 31 ft) src]
        else
          match findIdxP (fun e => e.addr.ip = src.ip) st with
          | some i => modifyIdx (fun e => updateOutputStateCP buf (addLogLine e buf)) i st
          | none => st
    else
      match findIdxP (fun e => e.addr.ip = src.ip) st with
      | some i => modifyIdx (fun e => addLogLine e buf) i st
      | none => st

/-- A reading forwarded to `moisture_receive_sensor_values`. -/
abbrev Reading := CStr × ℚ

/-- The `store mapping mac->ip` block shared by both telemetry branches
(src/server.c lines 215-232 and 246-260): a `strcmp` lookup updates the
entry's address to the packet's source, otherwise a new entry — `created`,
which differs between the two branches — is appended if the table has
room. -/
def macAddrUpdate (st : Registry) (src : Addr) (mac : CStr) (created : MapEntry) :
    Registry :=
  match findIdxP (fun e => e.mac = mac) st with
  | some i => modifyIdx (fun e => { e with addr := src }) i st
  | none => if st.length < SERVER_MAP_MAX then st ++ [created] else st

/-- The telemetry pass of `server_thread_fn` (src/server.c lines 200-264):
try the space shape, else the comma shape; a parsed value is forwarded
exactly when `0.0 <= v <= 5.0`, and the identifier's entry address is
updated (the entry is created if the table has room).  The comma-shape
creation branch (lines 252-258) assigns only `mac`, `addr`, `log_head` and
`log_count`: `live_text` and `last_output_state` keep the slot's
zero-initialized values, so such an entry starts with
`last_output_state = 0`, not `-1`. -/
def telemetryPass (st : Registry) (src : Addr) (buf : CStr) : Registry × List Reading :=
  match parseSpaceShape buf with
  | some (mac, v) =>
    if 0 ≤ v ∧ v ≤ 5 then
      (macAddrUpdate st src mac (freshEntry mac src), [(mac, v)])
    else (st, [])
  | none =>
    match parseCsvShape buf with
    | some (mac, v) =>
      if 0 ≤ v ∧ v ≤ 5 then
        (macAddrUpdate st src mac { (default : MapEntry) with mac := mac, addr := src },
         [(mac, v)])
      else (st, [])
    | none => (st, [])

/-- One iteration of the gateway receive loop on payload `buf` from `src`
(src/server.c lines 108-266): the diagnostic-attribution pass followed by
the telemetry pass.  Returns the new registry and the readings forwarded to
the external consumer. -/
def processPacket (st : Registry) (src : Addr) (buf : CStr) : Registry × List Reading :=
  telemetryPass (diagPass st src buf) src buf

/-! ## Command and query operations (src/server.c lines 274-369) -/

/-- `server_send_cmd_to_mac` (src/server.c lines 274-293) up to the socket
I/O: `strcmp` lookup, then unicast `"D0 1"` or `"D0 0"` to the entry's last
known address; `none` models the `-1` unknown-identifier result. -/
def server_send_cmd_to_mac (st : Registry) (mac : CStr) (activate : Bool) :
    Option (Addr × CStr) :=
  match findIdxP (fun e => e.mac = mac) st with
  | none => none
  | some i => some ((st.getD i default).addr, (if activate then "D0 1" else "D0 0").toList)

/-- `server_send_text_to_mac` (src/server.c lines 295-311) up to the socket
I/O: `strcmp` lookup, then unicast the text verbatim. -/
def server_send_text_to_mac (st : Registry) (mac : CStr) (text : CStr) :
    Option (Addr × CStr) :=
  match findIdxP (fun e => e.mac = mac) st with
  | none => none
  | some i => some ((st.getD i default).addr, text)

/-- The collection loop of `server_get_logs_for_mac` (src/server.c lines
323-334): walk `n` slots starting at ring position `p`, skip empty slots,
stop as soon as the next line plus separator would overflow the output
buffer (`used + l + 2 >= outbuflen`), and gather the surviving lines in
order.  `used` counts the bytes written so far (line bytes plus one
separator per line). -/
def collectLogs (logs : List CStr) (outbuflen : Nat) : Nat → Nat → Nat → List CStr
  | 0, _, _ => []
  | n + 1, p, used =>
    let ln := logs.getD (p % SERVER_LOG_LINES) []
    if ln = [] then collectLogs logs outbuflen n (p + 1) used
    else if outbuflen ≤ used + ln.length + 2 then []
    else ln :: collectLogs logs outbuflen n (p + 1) (used + ln.length + 1)

/-- Newline-joined output of the collection loop: each collected line is
followed by `'\n'` and the final `'\n'` is replaced by the terminator. -/
def joinNL : List CStr → CStr
  | [] => []
  | [l] => l
  | l :: ls => l ++ '\n' :: joinNL ls

/-- `server_get_logs_for_mac` (src/server.c lines 313-338): `strcasecmp`
lookup, then the ring contents oldest to newest — starting at
`(log_head - log_count + 64) % 64` — joined by newlines, bounded by the
output buffer. -/
def server_get_logs_for_mac (st : Registry) (mac : CStr) (outbuflen : Nat) :
    Option CStr :=
  if outbuflen = 0 then none
  else
    match findIdxP (fun e => strCaseEq e.mac mac) st with
    | none => none
    | some i =>
      let e := st.getD i default
      let start := (e.logHead + SERVER_LOG_LINES - e.logCount) % SERVER_LOG_LINES
      some (joinNL (collectLogs e.logs outbuflen e.logCount start 0))

/-- `server_get_live_text_for_mac` (src/server.c lines 340-356):
`strcasecmp` lookup, then the live-text snapshot truncated to the output
buffer. -/
def server_get_live_text_for_mac (st : Registry) (mac : CStr) (outbuflen : Nat) :
    Option CStr :=
  if outbuflen = 0 then none
  else
    match findIdxP (fun e => strCaseEq e.mac mac) st with
    | none => none
    | some i => some (truncTo (outbuflen - 1) (st.getD i default).liveText)

/-- `server_get_output_state_for_mac` (src/server.c lines 358-369):
`strcasecmp` lookup; `-1` doubles as the unknown-identifier result and the
unknown-state value. -/
def server_get_output_state_for_mac (st : Registry) (mac : CStr) : Int :=
  match findIdxP (fun e => strCaseEq e.mac mac) st with
  | none => -1
  | some i => (st.getD i default).lastOutputState

/-! ## Firmware provisioning workflow (src/flash.c lines 106-182)

`flash_thread_fn` is a straight-line workflow over external effects: serial
discovery, the `arduino-cli` binary probe, the compile and upload
subprocesses, and the registration wait.  The outcome of each external
effect is an input here (`FlashEnv`); the model records the calls made to
the status sink `moisture_flash_status_update` (where `none` is the NULL
end-of-workflow signal), the calls to `moisture_add_plot_for_sensor`
(where `none` is the NULL unassigned signal), whether the upload command
was invoked, and whether the temporary-directory cleanup ran. -/

/-- Outcomes of the external effects consumed by one run of
`flash_thread_fn`. -/
structure FlashEnv where
  /-- `find_first_serial` at line 112: the discovered device path. -/
  serial1 : Option String
  /-- any of `FLASH_SSID` / `FLASH_PASS` / `FLASH_TARGET_IP` set (line 116). -/
  haveConfig : Bool
  /-- the sketch copy and config write succeeded (`created_tmp = 1`, line 132). -/
  copyOk : Bool
  /-- the probed `arduino-cli` path (line 137), when executable. -/
  cli : Option String
  /-- `popen` of the compile command succeeded (line 144). -/
  compileStart : Bool
  /-- lines streamed from the compile command (line 148). -/
  compileLines : List String
  /-- `pclose` status of the compile command (line 149). -/
  compileRc : Int
  /-- `popen` of the upload command succeeded (line 162). -/
  uploadStart : Bool
  /-- lines streamed from the upload command (line 164). -/
  uploadLines : List String
  /-- `find_first_serial` after the upload phase (line 172). -/
  serial2 : Option String
  /-- statuses emitted inside `wait_for_registration_on_serial`
  (the periodic waiting message and any read-error message). -/
  regStatuses : List String
  /-- the identifier extracted from a registration line, if the wait
  succeeded within its timeout (line 174). -/
  regMac : Option String

/-- The observable outcome of one `flash_thread_fn` run. -/
structure FlashResult where
  /-- calls to `moisture_flash_status_update`, in order; `none` is NULL. -/
  statuses : List (Option String)
  /-- calls to `moisture_add_plot_for_sensor`, in order; `none` is NULL. -/
  plots : List (Option String)
  /-- the upload command was launched (line 160-166). -/
  uploadInvoked : Bool
  /-- the temporary working copy was removed (line 178). -/
  cleanupRan : Bool
deriving DecidableEq

/-- The compile/upload phase (src/flash.c lines 137-170): statuses emitted
and whether the upload command was invoked. -/
def flashBuildPhase (env : FlashEnv) : List (Option String) × Bool :=
  match env.cli with
  | none => ([some "arduino-cli not found; skipping flash"], false)
  | some _ =>
    let sc := [some "Compiling sketch..."] ++
      (if env.compileStart then
        env.compileLines.map some ++
          (if env.compileRc = 0 then []
           else [some ("Compile failed (rc=" ++ toString env.compileRc ++ ")")])
       else [some "Failed to run arduino-cli compile"])
    if env.compileStart && env.compileRc = 0 then
      (sc ++ [some "Flashing device..."] ++
        (if env.uploadStart then env.uploadLines.map some
         else [some "Failed to run arduino-cli upload"]), true)
    else
      (sc ++ [some "Skipping upload due to compile errors"], false)

/-- The rediscovery and registration phase (src/flash.c lines 172-176):
statuses emitted and the argument of the single
`moisture_add_plot_for_sensor` call. -/
def flashRegisterPhase (env : FlashEnv) : List (Option String) × Option String :=
  match env.serial2 with
  | none => ([some "No serial device found after upload"], none)
  | some np =>
    let pre := [some ("Using serial device " ++ np ++ " for registration")] ++
      env.regStatuses.map some
    match env.regMac with
    | some mac => (pre ++ [some ("Registered " ++ mac)], some mac)
    | none => (pre ++ [some "No registration received; adding unassigned plot"], none)

/-- `flash_thread_fn` (src/flash.c lines 106-182).  When the initial serial
discovery fails the function returns at line 112 after reporting and adding
an unassigned plot — without reaching the cleanup at line 178 or the final
NULL status at line 180.  On every other path it runs the build phase, the
registration phase, the conditional cleanup, and then emits the NULL
status. -/
def flashThreadFn (env : FlashEnv) : FlashResult :=
  match env.serial1 with
  | none =>
    { statuses := [some "Searching for serial device...", some "No serial device found"],
      plots := [none], uploadInvoked := false, cleanupRan := false }
  | some _ =>
    let createdTmp := env.haveConfig && env.copyOk
    let bp := flashBuildPhase env
    let rp := flashRegisterPhase env
    { statuses := [some "Searching for serial device..."] ++ bp.1 ++ rp.1 ++ [none],
      plots := [rp.2],
      uploadInvoked := bp.2,
      cleanupRan := createdTmp }

/-! ## Derived views used by the theorems -/

/-- The `n` ring slots starting at position `p`, in walk order — the view
of the log array that the collection loop of `server_get_logs_for_mac`
traverses. -/
def ringSeg (logs : List CStr) (p n : Nat) : List CStr :=
  (List.range n).map (fun i => logs.getD ((p + i) % SERVER_LOG_LINES) [])

/-- The stored lines of an entry oldest to newest: the ring slots from
`(log_head - log_count + 64) % 64` for `log_count` steps. -/
def ringOf (e : MapEntry) : List CStr :=
  ringSeg e.logs ((e.logHead + SERVER_LOG_LINES - e.logCount) % SERVER_LOG_LINES) e.logCount

/-- The last `n` elements of a list. -/
def lastN (n : Nat) (l : List α) : List α := l.drop (l.length - n)

/-! ## Theorems -/

-- ### Identifier extraction

theorem macAt_nil (i : Nat) : ¬ macAt [] i := by
  intro h
  simp [macAt, macWindowOk] at h

/-- C4: for every input string, `extract_mac_from_string` returns the
leftmost contiguous 17-character window of the form `xx:xx:xx:xx:xx:xx` —
hex digits at every non-separator position, `':'` exactly at window
positions 2, 5, 8, 11, 14 (`macWindowOk`) — case preserved; if no such
window exists anywhere it reports not-found. -/
theorem extract_mac_spec (l : CStr) :
    (∀ w, extract_mac_from_string l = some w →
       ∃ i, w = (l.drop i).take 17 ∧ macAt l i ∧ ∀ j, macAt l j → i ≤ j) ∧
    (extract_mac_from_string l = none → ∀ i, ¬ macAt l i) := by
  induction l with
  | nil =>
    refine ⟨fun w h => ?_, fun _ i => macAt_nil i⟩
    simp [extract_mac_from_string] at h
  | cons c cs ih =>
    by_cases hw : macWindowOk ((c :: cs).take 17) = true
    · refine ⟨fun w h => ?_, fun h => ?_⟩
      · rw [extract_mac_from_string, if_pos hw] at h
        refine ⟨0, ?_, ?_, fun j _ => Nat.zero_le j⟩
        · simpa using h.symm
        · simpa [macAt] using hw
      · rw [extract_mac_from_string, if_pos hw] at h
        exact absurd h (by simp)
    · refine ⟨fun w h => ?_, fun h i => ?_⟩
      · rw [extract_mac_from_string, if_neg hw] at h
        obtain ⟨i, hwi, hmi, hmin⟩ := ih.1 w h
        refine ⟨i + 1, hwi, hmi, fun j hj => ?_⟩
        cases j with
        | zero => exact absurd hj (by simpa [macAt] using hw)
        | succ j => exact Nat.succ_le_succ (hmin j hj)
      · rw [extract_mac_from_string, if_neg hw] at h
        cases i with
        | zero => simpa [macAt] using hw
        | succ i => exact ih.2 h i

/-- Witness for C4 on the spec's own example: the identifier embedded in
`"boot ok aa:bb:cc:dd:ee:ff ready"` is extracted and is the leftmost valid
window. -/
theorem extract_mac_spec_witness :
    ∃ i, "aa:bb:cc:dd:ee:ff".toList =
        (("boot ok aa:bb:cc:dd:ee:ff ready".toList).drop i).take 17 ∧
      macAt "boot ok aa:bb:cc:dd:ee:ff ready".toList i ∧
      ∀ j, macAt "boot ok aa:bb:cc:dd:ee:ff ready".toList j → i ≤ j :=
  (extract_mac_spec "boot ok aa:bb:cc:dd:ee:ff ready".toList).1
    "aa:bb:cc:dd:ee:ff".toList (by decide)

-- ### Provisioning workflow

-- The NULL status is never produced inside the build phase.
theorem none_notMem_buildPhase (env : FlashEnv) :
    (none : Option String) ∉ (flashBuildPhase env).1 := by
  unfold flashBuildPhase
  rcases env.cli with _ | c
  · simp
  · rcases hcs : env.compileStart with _ | _ <;>
      rcases hrc : decide (env.compileRc = 0) with _ | _ <;>
        rcases hus : env.uploadStart with _ | _ <;>
          simp_all [List.mem_append, List.mem_map]

-- The NULL status is never produced inside the registration phase.
theorem none_notMem_registerPhase (env : FlashEnv) :
    (none : Option String) ∉ (flashRegisterPhase env).1 := by
  unfold flashRegisterPhase
  rcases env.serial2 with _ | np
  · simp
  · rcases env.regMac with _ | mac <;> simp [List.mem_append, List.mem_map]

/-- C1 (amended): whenever the compile command starts and exits non-zero,
the upload command is never invoked and the status sink receives the
`"Skipping upload due to compile errors"` message; but the workflow then
proceeds to rediscovery and the registration wait, so it finalizes with the
unassigned signal only when rediscovery fails or no identifier is received —
a successful registration finalizes with that identifier even though the
compile failed. -/
theorem flash_compile_fail_skips_upload (env : FlashEnv) (d c : String)
    (h1 : env.serial1 = some d) (h2 : env.cli = some c)
    (h3 : env.compileStart = true) (h4 : env.compileRc ≠ 0) :
    (flashThreadFn env).uploadInvoked = false ∧
    some "Skipping upload due to compile errors" ∈ (flashThreadFn env).statuses ∧
    (flashThreadFn env).plots =
      [match env.serial2 with
       | none => none
       | some _ => env.regMac] := by
  obtain ⟨s1, hcfg, co, cli0, cst, cl, crc, ust, ul, s2, rs, rm⟩ := env
  simp only at h1 h2 h3 h4
  subst h1 h2 h3
  rcases s2 with _ | np <;> rcases rm with _ | mac <;>
    simp [flashThreadFn, flashBuildPhase, flashRegisterPhase, h4, List.mem_append]

/-- Witness for the amended C1 at a concrete environment: compile starts
and exits 1, a device is rediscovered and no registration arrives, so the
workflow finalizes unassigned after the skipping-upload status. -/
theorem flash_compile_fail_skips_upload_witness :
    ((⟨some "/dev/ttyACM0", false, false, some "/usr/local/bin/arduino-cli", true, [],
        1, false, [], some "/dev/ttyACM0", [], none⟩ : FlashEnv).compileRc ≠ 0) ∧
    ((flashThreadFn ⟨some "/dev/ttyACM0", false, false,
        some "/usr/local/bin/arduino-cli", true, [], 1, false, [],
        some "/dev/ttyACM0", [], none⟩).uploadInvoked = false ∧
      some "Skipping upload due to compile errors" ∈
        (flashThreadFn ⟨some "/dev/ttyACM0", false, false,
          some "/usr/local/bin/arduino-cli", true, [], 1, false, [],
          some "/dev/ttyACM0", [], none⟩).statuses ∧
      (flashThreadFn ⟨some "/dev/ttyACM0", false, false,
          some "/usr/local/bin/arduino-cli", true, [], 1, false, [],
          some "/dev/ttyACM0", [], none⟩).plots =
        [match (some "/dev/ttyACM0" : Option String) with
         | none => none
         | some _ => (none : Option String)]) :=
  ⟨by decide,
   flash_compile_fail_skips_upload _ "/dev/ttyACM0" "/usr/local/bin/arduino-cli"
     rfl rfl rfl (by decide)⟩

/-- Counterexample to C1 as stated: with a failed compile (`rc = 1`) but a
device still present and a registration line arriving, the workflow
finalizes with the confirmed identifier, not the unassigned signal. -/
theorem flash_compile_fail_register_counterexample :
    (flashThreadFn ⟨some "/dev/ttyACM0", false, false,
        some "/usr/local/bin/arduino-cli", true, [], 1, false, [],
        some "/dev/ttyACM0", [], some "aa:bb:cc:dd:ee:ff"⟩).uploadInvoked = false ∧
    some "Skipping upload due to compile errors" ∈
      (flashThreadFn ⟨some "/dev/ttyACM0", false, false,
        some "/usr/local/bin/arduino-cli", true, [], 1, false, [],
        some "/dev/ttyACM0", [], some "aa:bb:cc:dd:ee:ff"⟩).statuses ∧
    (flashThreadFn ⟨some "/dev/ttyACM0", false, false,
        some "/usr/local/bin/arduino-cli", true, [], 1, false, [],
        some "/dev/ttyACM0", [], some "aa:bb:cc:dd:ee:ff"⟩).plots =
      [some "aa:bb:cc:dd:ee:ff"] ∧
    (flashThreadFn ⟨some "/dev/ttyACM0", false, false,
        some "/usr/local/bin/arduino-cli", true, [], 1, false, [],
        some "/dev/ttyACM0", [], some "aa:bb:cc:dd:ee:ff"⟩).plots ≠ [none] := by
  decide

/-- C2 (amended): on every path the workflow makes exactly one finalize
call; on every path on which the initial serial discovery succeeds, the
status sink receives the NULL done signal exactly once, as the last status,
and the cleanup runs exactly when a temporary working copy was
materialized.  When the initial serial discovery fails, the workflow still
finalizes with the unassigned signal but returns early: no NULL done signal
is ever delivered (and the cleanup — vacuous at that point — is skipped). -/
theorem flash_always_finalizes (env : FlashEnv) :
    (flashThreadFn env).plots.length = 1 ∧
    (∀ d, env.serial1 = some d →
      (∃ pre, (flashThreadFn env).statuses = pre ++ [none] ∧
        (none : Option String) ∉ pre) ∧
      (flashThreadFn env).cleanupRan = (env.haveConfig && env.copyOk)) ∧
    (env.serial1 = none →
      (none : Option String) ∉ (flashThreadFn env).statuses ∧
      (flashThreadFn env).cleanupRan = false) := by
  obtain ⟨s1, hcfg, co, cli0, cst, cl, crc, ust, ul, s2, rs, rm⟩ := env
  rcases s1 with _ | d
  · refine ⟨rfl, fun d h => by simp at h, fun _ => ⟨?_, rfl⟩⟩
    simp [flashThreadFn]
  · refine ⟨rfl, fun d0 _ => ?_, fun h => by simp at h⟩
    refine ⟨⟨[some "Searching for serial device..."] ++
      (flashBuildPhase ⟨some d, hcfg, co, cli0, cst, cl, crc, ust, ul, s2, rs, rm⟩).1 ++
      (flashRegisterPhase ⟨some d, hcfg, co, cli0, cst, cl, crc, ust, ul, s2, rs,
        rm⟩).1, ?_, ?_⟩, rfl⟩
    · simp [flashThreadFn]
    · intro hmem
      rcases List.mem_append.1 hmem with hmem | hmem
      · rcases List.mem_append.1 hmem with hmem | hmem
        · simp at hmem
        · exact none_notMem_buildPhase _ hmem
      · exact none_notMem_registerPhase _ hmem

/-- Witness for the amended C2 at a concrete environment whose initial
serial discovery succeeds. -/
theorem flash_always_finalizes_witness :
    ((flashThreadFn ⟨some "/dev/ttyUSB0", true, true, none, false, [], 0, false, [],
        none, [], none⟩).plots.length = 1) ∧
    ((∃ pre, (flashThreadFn ⟨some "/dev/ttyUSB0", true, true, none, false, [], 0,
        false, [], none, [], none⟩).statuses = pre ++ [none] ∧
        (none : Option String) ∉ pre) ∧
      (flashThreadFn ⟨some "/dev/ttyUSB0", true, true, none, false, [], 0, false, [],
        none, [], none⟩).cleanupRan = (true && true)) :=
  ⟨(flash_always_finalizes _).1,
   (flash_always_finalizes ⟨some "/dev/ttyUSB0", true, true, none, false, [], 0,
     false, [], none, [], none⟩).2.1 "/dev/ttyUSB0" rfl⟩

/-- Counterexample to C2 as stated: when serial discovery fails at the very
first step, the workflow finalizes unassigned but the status sink never
receives the NULL done signal — the trace ends at the discovery-failure
message and cleanup is skipped. -/
theorem flash_no_done_signal_counterexample :
    (flashThreadFn ⟨none, false, false, none, false, [], 0, false, [], none, [],
        none⟩).plots = [none] ∧
    (flashThreadFn ⟨none, false, false, none, false, [], 0, false, [], none, [],
        none⟩).statuses =
      [some "Searching for serial device...", some "No serial device found"] ∧
    (none : Option String) ∉
      (flashThreadFn ⟨none, false, false, none, false, [], 0, false, [], none, [],
        none⟩).statuses ∧
    (flashThreadFn ⟨none, false, false, none, false, [], 0, false, [], none, [],
        none⟩).cleanupRan = false := by
  decide

-- ### Registry lookups and case sensitivity

-- `findIdxP` only depends on the predicate's values.
theorem findIdxP_congr (p q : α → Bool) (l : List α) (h : ∀ a, p a = q a) :
    findIdxP p l = findIdxP q l := by
  induction l with
  | nil => rfl
  | cons a l ih => simp [findIdxP, h a, ih]

/-- C5 (amended): the three query operations — `server_get_logs_for_mac`,
`server_get_live_text_for_mac`, `server_get_output_state_for_mac` — look the
identifier up with `strcasecmp` and therefore treat case variants
identically; but `server_send_cmd_to_mac` and `server_send_text_to_mac` use
case-sensitive `strcmp`, so a case variant of a registered identifier fails
there with the unknown-identifier result. -/
theorem gateway_query_case_insensitive (st : Registry) (m mvar : CStr) (n : Nat)
    (h : m.map lowerC = mvar.map lowerC) :
    server_get_logs_for_mac st m n = server_get_logs_for_mac st mvar n ∧
    server_get_live_text_for_mac st m n = server_get_live_text_for_mac st mvar n ∧
    server_get_output_state_for_mac st m = server_get_output_state_for_mac st mvar := by
  have hidx : findIdxP (fun e => strCaseEq e.mac m) st =
      findIdxP (fun e => strCaseEq e.mac mvar) st := by
    refine findIdxP_congr _ _ st fun e => ?_
    simp [strCaseEq, h]
  refine ⟨?_, ?_, ?_⟩ <;> simp [server_get_logs_for_mac, server_get_live_text_for_mac,
    server_get_output_state_for_mac, hidx]

/-- Witness for the amended C5: upper-hex and lower-hex spellings of the
same identifier are interchangeable in the three query operations. -/
theorem gateway_query_case_insensitive_witness :
    ("AA:BB:CC:DD:EE:FF".toList.map lowerC = "aa:bb:cc:dd:ee:ff".toList.map lowerC) ∧
    (server_get_logs_for_mac [freshEntry "AA:BB:CC:DD:EE:FF".toList ⟨7, 9⟩]
        "AA:BB:CC:DD:EE:FF".toList 100 =
      server_get_logs_for_mac [freshEntry "AA:BB:CC:DD:EE:FF".toList ⟨7, 9⟩]
        "aa:bb:cc:dd:ee:ff".toList 100 ∧
     server_get_live_text_for_mac [freshEntry "AA:BB:CC:DD:EE:FF".toList ⟨7, 9⟩]
        "AA:BB:CC:DD:EE:FF".toList 100 =
      server_get_live_text_for_mac [freshEntry "AA:BB:CC:DD:EE:FF".toList ⟨7, 9⟩]
        "aa:bb:cc:dd:ee:ff".toList 100 ∧
     server_get_output_state_for_mac [freshEntry "AA:BB:CC:DD:EE:FF".toList ⟨7, 9⟩]
        "AA:BB:CC:DD:EE:FF".toList =
      server_get_output_state_for_mac [freshEntry "AA:BB:CC:DD:EE:FF".toList ⟨7, 9⟩]
        "aa:bb:cc:dd:ee:ff".toList) :=
  ⟨by decide,
   gateway_query_case_insensitive [freshEntry "AA:BB:CC:DD:EE:FF".toList ⟨7, 9⟩]
     "AA:BB:CC:DD:EE:FF".toList "aa:bb:cc:dd:ee:ff".toList 100 (by decide)⟩

/-- Counterexample to C5 as stated: a session registered under the
upper-hex identifier is found by the three `strcasecmp` query operations
when addressed in lower-hex, but `server_send_cmd_to_mac` and
`server_send_text_to_mac` compare with case-sensitive `strcmp` and fail
with the unknown-identifier result on the very same lower-hex variant. -/
theorem gateway_send_case_sensitive_counterexample :
    server_send_cmd_to_mac [freshEntry "AA:BB:CC:DD:EE:FF".toList ⟨7, 9⟩]
      "AA:BB:CC:DD:EE:FF".toList true = some (⟨7, 9⟩, "D0 1".toList) ∧
    server_send_cmd_to_mac [freshEntry "AA:BB:CC:DD:EE:FF".toList ⟨7, 9⟩]
      "aa:bb:cc:dd:ee:ff".toList true = none ∧
    server_send_text_to_mac [freshEntry "AA:BB:CC:DD:EE:FF".toList ⟨7, 9⟩]
      "aa:bb:cc:dd:ee:ff".toList "hi".toList = none ∧
    server_get_logs_for_mac [freshEntry "AA:BB:CC:DD:EE:FF".toList ⟨7, 9⟩]
      "aa:bb:cc:dd:ee:ff".toList 100 = some [] := by
  decide

-- ### Session creation and the actuator state (C6)

/-- C6: the claim that every freshly created session starts with the
UNKNOWN (-1) actuator state fails on the comma-shape creation path.  A
fresh gateway receiving the single packet `"plant1,2.5"` creates the
session through the comma-telemetry branch, which never assigns
`last_output_state`; the zero-initialized slot therefore reports state `0`
(LOW) although no actuator-state line was ever received.  The reading
itself is forwarded normally. -/
theorem gateway_csv_creation_state_bug :
    (processPacket [] ⟨1, 1⟩ ("plant1,2.5".toList)).1 =
      [{ mac := "plant1".toList, addr := ⟨1, 1⟩, logs := List.replicate 64 [],
         logHead := 0, logCount := 0, liveText := [], lastOutputState := 0 }] ∧
    (processPacket [] ⟨1, 1⟩ ("plant1,2.5".toList)).2 =
      [("plant1".toList, mkRat 5 2)] ∧
    server_get_output_state_for_mac (processPacket [] ⟨1, 1⟩ ("plant1,2.5".toList)).1
      "plant1".toList = 0 := by
  decide

-- ### Scanning lemmas

theorem skipWs_cons_of_not (c : Char) (cs : CStr) (h : isSpaceC c = false) :
    skipWs (c :: cs) = c :: cs := by
  simp [skipWs, h]

theorem takeToken_append (t r : CStr) (n : Nat)
    (ht : ∀ c ∈ t, isSpaceC c = false) (hn : t.length ≤ n)
    (hr : r = [] ∨ ∃ c cs, r = c :: cs ∧ isSpaceC c = true) :
    takeToken n (t ++ r) = (t, r) := by
  induction t generalizing n with
  | nil =>
    rcases hr with rfl | ⟨c, cs, rfl, hc⟩
    · cases n <;> simp [takeToken]
    · cases n <;> simp [takeToken, hc]
  | cons a t ih =>
    cases n with
    | zero => simp at hn
    | succ n =>
      have ha : isSpaceC a = false := ht a (by simp)
      have := ih n (fun c hc => ht c (by simp [hc])) (Nat.le_of_succ_le_succ hn)
      simp [takeToken, ha, this]

theorem scanS_append (t r : CStr) (n : Nat) (htne : t ≠ [])
    (ht : ∀ c ∈ t, isSpaceC c = false) (hn : t.length ≤ n)
    (hr : r = [] ∨ ∃ c cs, r = c :: cs ∧ isSpaceC c = true) :
    scanS n (t ++ r) = some (t, r) := by
  obtain ⟨a, t0, rfl⟩ := List.exists_cons_of_ne_nil htne
  unfold scanS
  rw [List.cons_append, skipWs_cons_of_not a (t0 ++ r) (ht a (by simp)),
    ← List.cons_append, takeToken_append _ _ _ ht hn hr]
  simp

theorem takeNoComma_append (t r : CStr) (n : Nat)
    (ht : ∀ c ∈ t, c ≠ ',') (hn : t.length ≤ n)
    (hr : r = [] ∨ ∃ cs, r = ',' :: cs) :
    takeNoComma n (t ++ r) = (t, r) := by
  induction t generalizing n with
  | nil =>
    rcases hr with rfl | ⟨cs, rfl⟩
    · cases n <;> simp [takeNoComma]
    · cases n <;> simp [takeNoComma]
  | cons a t ih =>
    cases n with
    | zero => simp at hn
    | succ n =>
      have ha : a ≠ ',' := ht a (by simp)
      have := ih n (fun c hc => ht c (by simp [hc])) (Nat.le_of_succ_le_succ hn)
      simp [takeNoComma, ha, this]

-- When the input holds no comma at all, the set conversion leaves either
-- nothing or a non-comma head, so the comma shape never matches.
theorem takeNoComma_snd_noComma (n : Nat) (l : CStr) (h : ∀ c ∈ l, c ≠ ',') :
    (takeNoComma n l).2 = [] ∨
      ∃ c cs, (takeNoComma n l).2 = c :: cs ∧ c ≠ ',' := by
  induction l generalizing n with
  | nil => cases n <;> simp [takeNoComma]
  | cons a l ih =>
    have ha : a ≠ ',' := h a (by simp)
    cases n with
    | zero => exact Or.inr ⟨a, l, rfl, ha⟩
    | succ n =>
      simp only [takeNoComma, ha, if_neg, ite_false]
      exact ih n (fun c hc => h c (by simp [hc]))

theorem parseCsvShape_none_of_noComma (buf : CStr) (h : ∀ c ∈ buf, c ≠ ',') :
    parseCsvShape buf = none := by
  unfold parseCsvShape
  rcases takeNoComma_snd_noComma 31 buf h with h2 | ⟨c, cs, h2, hc⟩
  · by_cases h1 : (takeNoComma 31 buf).1 = [] <;> simp [h1, h2]
  · by_cases h1 : (takeNoComma 31 buf).1 = [] <;> simp [h1, h2, hc]

theorem parseSpaceShape_append (t rest : CStr) (htne : t ≠ [])
    (ht : ∀ c ∈ t, isSpaceC c = false) (hn : t.length ≤ 31) :
    parseSpaceShape (t ++ ' ' :: rest) =
      match scanF rest with
      | none => none
      | some (v, _) => some (t, v) := by
  unfold parseSpaceShape
  rw [scanS_append t (' ' :: rest) 31 htne ht hn (Or.inr ⟨' ', rest, rfl, by decide⟩)]
  have hsw : scanF (' ' :: rest) = scanF rest := by
    unfold scanF
    have hsp : isSpaceC ' ' = true := by decide
    simp [skipWs, hsp]
  simp only [hsw]

-- A payload that is one short non-whitespace token fails the space shape:
-- the token conversion consumes everything and `%f` fails on empty input.
theorem parseSpaceShape_none_short (l : CStr) (hl : l ≠ [])
    (hw : ∀ c ∈ l, isSpaceC c = false) (hn : l.length ≤ 31) :
    parseSpaceShape l = none := by
  unfold parseSpaceShape
  have h := scanS_append l [] 31 hl hw hn (Or.inl rfl)
  rw [List.append_nil] at h
  rw [h]
  rfl

-- ### Registry lemmas

theorem findIdxP_none_iff (p : α → Bool) (l : List α) :
    findIdxP p l = none ↔ ∀ a ∈ l, p a = false := by
  induction l with
  | nil => simp [findIdxP]
  | cons a l ih =>
    by_cases ha : p a <;> simp [findIdxP, ha, ih]

theorem findIdxP_isSome_of_mem (p : α → Bool) (l : List α) (a : α)
    (ha : a ∈ l) (hp : p a = true) : findIdxP p l ≠ none := by
  intro h
  rw [findIdxP_none_iff] at h
  rw [h a ha] at hp
  exact Bool.false_ne_true hp

theorem findIdxP_modifyIdx_mem (p : α → Bool) (f : α → α) (l : List α) (i : Nat)
    (h : findIdxP p l = some i) :
    ∃ a ∈ l, p a = true ∧ f a ∈ modifyIdx f i l := by
  induction l generalizing i with
  | nil => simp [findIdxP] at h
  | cons a l ih =>
    by_cases ha : p a
    · simp only [findIdxP, ha, if_true, Option.some.injEq] at h
      subst h
      exact ⟨a, by simp, ha, by simp [modifyIdx]⟩
    · simp only [findIdxP, ha, Bool.false_eq_true, if_false, Option.map_eq_some'] at h
      obtain ⟨j, hj, rfl⟩ := h
      obtain ⟨b, hb, hpb, hmem⟩ := ih j hj
      exact ⟨b, by simp [hb], hpb, by simp [modifyIdx, hmem]⟩

theorem modifyIdx_map (g : α → β) (f : α → α) (i : Nat) (l : List α)
    (h : ∀ a, g (f a) = g a) : (modifyIdx f i l).map g = l.map g := by
  induction l generalizing i with
  | nil => cases i <;> rfl
  | cons a l ih =>
    cases i with
    | zero => simp [modifyIdx, h a]
    | succ i => simp [modifyIdx, ih i]

theorem modifyIdx_length (f : α → α) (i : Nat) (l : List α) :
    (modifyIdx f i l).length = l.length := by
  induction l generalizing i with
  | nil => cases i <;> rfl
  | cons a l ih =>
    cases i with
    | zero => rfl
    | succ i => simp [modifyIdx, ih i]

theorem strCaseEq_of_eq (a b : CStr) (h : a = b) : strCaseEq a b = true := by
  simp [strCaseEq, h]

-- Neither the log append nor the actuator-state updates change an entry's
-- identifier.
theorem mac_addLogLine (e : MapEntry) (b : CStr) : (addLogLine e b).mac = e.mac := rfl

theorem mac_updateOutputState (b : CStr) (e : MapEntry) :
    (updateOutputState b e).mac = e.mac := rfl

theorem mac_updateOutputStateCP (b : CStr) (e : MapEntry) :
    (updateOutputStateCP b e).mac = e.mac := rfl

-- The diagnostic pass either keeps the identifier column unchanged or —
-- only when the first token is identifier-shaped, unknown (case
-- insensitively) and the table has room — appends the token truncated to
-- 31 bytes.
theorem diagPass_macs (st : Registry) (src : Addr) (buf : CStr) :
    (diagPass st src buf).map (fun e => e.mac) = st.map (fun e => e.mac) ∨
    (∃ t r, scanS 63 buf = some (t, r) ∧ t.contains ':' = true ∧
      findIdxP (fun e => strCaseEq e.mac t) st = none ∧
      st.length < SERVER_MAP_MAX ∧
      (diagPass st src buf).map (fun e => e.mac) =
        st.map (fun e => e.mac) ++ [truncTo 31 t]) := by
  unfold diagPass
  rcases hscan : scanS 63 buf with _ | ⟨t, r⟩
  · exact Or.inl rfl
  · by_cases hcol : t.contains ':'
    · rcases hfind : findIdxP (fun e => strCaseEq e.mac t) st with _ | i
      · by_cases hlen : st.length < SERVER_MAP_MAX
        · refine Or.inr ⟨t, r, rfl, hcol, hfind, hlen, ?_⟩
          simp only [hcol, if_true, hfind, hlen, ite_true]
          simp [freshEntry]
        · rcases haddr : findIdxP (fun e => e.addr.ip = src.ip) st with _ | i
          · exact Or.inl (by simp only [hcol, if_true, hfind, hlen, ite_false, haddr])
          · refine Or.inl ?_
            simp only [hcol, if_true, hfind, hlen, ite_false, haddr]
            exact modifyIdx_map MapEntry.mac
              (fun e => updateOutputStateCP buf (addLogLine e buf)) i st (fun a => rfl)
      · refine Or.inl ?_
        simp only [hcol, if_true, hfind]
        exact modifyIdx_map MapEntry.mac
          (fun e => updateOutputState buf (addLogLine e buf)) i st (fun a => rfl)
    · have hcolf : t.contains ':' = false := by
        revert hcol
        cases t.contains ':' <;> simp
      rcases haddr : findIdxP (fun e => e.addr.ip = src.ip) st with _ | i
      · exact Or.inl (by simp only [hcolf, Bool.false_eq_true, if_false, haddr])
      · refine Or.inl ?_
        simp only [hcolf, Bool.false_eq_true, if_false, haddr]
        exact modifyIdx_map MapEntry.mac (fun e => addLogLine e buf) i st
          (fun a => rfl)
-- The mapping update keeps the identifier column, or appends the parsed
-- identifier when it is unknown (exact comparison) and the table has room.
theorem macAddrUpdate_macs (st : Registry) (src : Addr) (mac : CStr)
    (created : MapEntry) (hm : created.mac = mac) :
    (macAddrUpdate st src mac created).map (fun e => e.mac) =
      st.map (fun e => e.mac) ∨
    (findIdxP (fun e => e.mac = mac) st = none ∧ st.length < SERVER_MAP_MAX ∧
      (macAddrUpdate st src mac created).map (fun e => e.mac) =
        st.map (fun e => e.mac) ++ [mac]) := by
  unfold macAddrUpdate
  rcases hfind : findIdxP (fun e => e.mac = mac) st with _ | i
  · by_cases hlen : st.length < SERVER_MAP_MAX
    · refine Or.inr ⟨hfind, hlen, ?_⟩
      simp only [hfind]
      simp [hlen, hm]
    · simp only [hfind]
      simp [hlen]
  · refine Or.inl ?_
    simp only [hfind]
    exact modifyIdx_map MapEntry.mac (fun e => { e with addr := src }) i st
      (fun a => rfl)

-- After the mapping update the identifier's entry exists and carries the
-- packet's source address, provided the identifier was present or the
-- table had room.
theorem macAddrUpdate_mem (st : Registry) (src : Addr) (mac : CStr)
    (created : MapEntry) (hm : created.mac = mac) (ha : created.addr = src)
    (hcap : (∃ e ∈ st, e.mac = mac) ∨ st.length < SERVER_MAP_MAX) :
    ∃ e ∈ macAddrUpdate st src mac created, e.mac = mac ∧ e.addr = src := by
  unfold macAddrUpdate
  rcases hfind : findIdxP (fun e => e.mac = mac) st with _ | i
  · have hnone : ∀ e ∈ st, ¬ e.mac = mac := by
      intro e he
      have := (findIdxP_none_iff (fun e => e.mac = mac) st).1 hfind e he
      simpa using this
    have hlen : st.length < SERVER_MAP_MAX := by
      rcases hcap with ⟨e, he, hemac⟩ | hlen
      · exact absurd hemac (hnone e he)
      · exact hlen
    simp only [hfind, hlen, ite_true]
    exact ⟨created, by simp, hm, ha⟩
  · obtain ⟨a, hamem, hpa, hmem⟩ := findIdxP_modifyIdx_mem
      (fun e => e.mac = mac) (fun e => { e with addr := src }) st i hfind
    simp only [hfind]
    refine ⟨{ a with addr := src }, hmem, ?_, rfl⟩
    simpa using hpa

-- The telemetry pass keeps the identifier column, or appends the parsed
-- identifier when it is unknown and the table has room.
theorem telemetryPass_macs (st : Registry) (src : Addr) (buf : CStr) :
    (telemetryPass st src buf).1.map (fun e => e.mac) = st.map (fun e => e.mac) ∨
    (∃ mac, findIdxP (fun e => e.mac = mac) st = none ∧
      st.length < SERVER_MAP_MAX ∧
      (telemetryPass st src buf).1.map (fun e => e.mac) =
        st.map (fun e => e.mac) ++ [mac]) := by
  unfold telemetryPass
  rcases hsp : parseSpaceShape buf with _ | ⟨mac, v⟩
  · rcases hcsv : parseCsvShape buf with _ | ⟨mac, v⟩
    · exact Or.inl rfl
    · by_cases hr : 0 ≤ v ∧ v ≤ 5
      · simp only [hr, ite_true]
        rcases macAddrUpdate_macs st src mac
          { (default : MapEntry) with mac := mac, addr := src } rfl with h | ⟨h1, h2, h3⟩
        · exact Or.inl h
        · exact Or.inr ⟨mac, h1, h2, h3⟩
      · simp only [hr, ite_false]
        exact Or.inl trivial
  · by_cases hr : 0 ≤ v ∧ v ≤ 5
    · simp only [hr, ite_true]
      rcases macAddrUpdate_macs st src mac (freshEntry mac src) rfl with h | ⟨h1, h2, h3⟩
      · exact Or.inl h
      · exact Or.inr ⟨mac, h1, h2, h3⟩
    · simp only [hr, ite_false]
      exact Or.inl trivial

-- After the diagnostic pass, a token that was present (exactly) or had
-- room keeps that property, because the only entry the pass can append is
-- keyed by the packet's own first token — which, for a payload
-- `t ++ ' ' :: vstr` with a short non-whitespace `t`, is `t` itself.
theorem diagPass_capacity (st : Registry) (src : Addr) (t vstr : CStr)
    (htne : t ≠ []) (ht : ∀ c ∈ t, isSpaceC c = false) (hn : t.length ≤ 31)
    (hcap : (∃ e ∈ st, e.mac = t) ∨ st.length < SERVER_MAP_MAX) :
    (∃ e ∈ diagPass st src (t ++ ' ' :: vstr), e.mac = t) ∨
      (diagPass st src (t ++ ' ' :: vstr)).length < SERVER_MAP_MAX := by
  rcases diagPass_macs st src (t ++ ' ' :: vstr) with hd |
    ⟨t2, r2, hscan2, hcol2, hfind2, hlen2, hd⟩
  · rcases hcap with ⟨e, he, hemac⟩ | hlen
    · refine Or.inl ?_
      have : t ∈ (diagPass st src (t ++ ' ' :: vstr)).map (fun e => e.mac) := by
        rw [hd]
        exact List.mem_map.2 ⟨e, he, hemac⟩
      obtain ⟨e1, he1, he1m⟩ := List.mem_map.1 this
      exact ⟨e1, he1, he1m⟩
    · refine Or.inr ?_
      have hlen1 : (diagPass st src (t ++ ' ' :: vstr)).length = st.length := by
        have := congrArg List.length hd
        simpa using this
      omega
  · have hscan : scanS 63 (t ++ ' ' :: vstr) = some (t, ' ' :: vstr) :=
      scanS_append t (' ' :: vstr) 63 htne ht (le_trans hn (by norm_num))
        (Or.inr ⟨' ', vstr, rfl, by decide⟩)
    rw [hscan] at hscan2
    have ht2 : t2 = t := by
      simp only [Option.some.injEq, Prod.mk.injEq] at hscan2
      exact hscan2.1.symm
    subst ht2
    have htr : truncTo 31 t2 = t2 := List.take_of_length_le hn
    refine Or.inl ?_
    have : t2 ∈ (diagPass st src (t2 ++ ' ' :: vstr)).map (fun e => e.mac) := by
      rw [hd, htr]
      simp
    obtain ⟨e1, he1, he1m⟩ := List.mem_map.1 this
    exact ⟨e1, he1, he1m⟩

-- Master lemma for a space-separated payload `t ++ ' ' :: vstr` with a
-- short non-whitespace token: the forwarded readings and the resulting
-- session, by cases on the `%f` parse of the value field.
theorem processPacket_space (st : Registry) (src : Addr) (t vstr : CStr)
    (htne : t ≠ []) (ht : ∀ c ∈ t, isSpaceC c = false) (hn : t.length ≤ 31) :
    (∀ v r2, scanF vstr = some (v, r2) →
      ((0 ≤ v ∧ v ≤ 5) →
        (processPacket st src (t ++ ' ' :: vstr)).2 = [(t, v)] ∧
        (((∃ e ∈ st, e.mac = t) ∨ st.length < SERVER_MAP_MAX) →
          ∃ e ∈ (processPacket st src (t ++ ' ' :: vstr)).1,
            e.mac = t ∧ e.addr = src)) ∧
      (¬(0 ≤ v ∧ v ≤ 5) → (processPacket st src (t ++ ' ' :: vstr)).2 = [])) ∧
    (scanF vstr = none → (∀ c ∈ t, c ≠ ',') → (∀ c ∈ vstr, c ≠ ',') →
      (processPacket st src (t ++ ' ' :: vstr)).2 = []) := by
  have hps := parseSpaceShape_append t vstr htne ht hn
  constructor
  · intro v r2 hf
    rw [hf] at hps
    constructor
    · intro hr
      constructor
      · show (telemetryPass (diagPass st src (t ++ ' ' :: vstr)) src
          (t ++ ' ' :: vstr)).2 = [(t, v)]
        unfold telemetryPass
        rw [hps]
        simp [hr]
      · intro hcap
        have hcap1 := diagPass_capacity st src t vstr htne ht hn hcap
        show ∃ e ∈ (telemetryPass (diagPass st src (t ++ ' ' :: vstr)) src
          (t ++ ' ' :: vstr)).1, e.mac = t ∧ e.addr = src
        unfold telemetryPass
        rw [hps]
        simp only [hr, and_self, ite_true]
        exact macAddrUpdate_mem _ src t (freshEntry t src) rfl rfl hcap1
    · intro hr
      show (telemetryPass (diagPass st src (t ++ ' ' :: vstr)) src
        (t ++ ' ' :: vstr)).2 = []
      unfold telemetryPass
      rw [hps]
      simp [hr]
  · intro hf htc hvc
    rw [hf] at hps
    have hcsv : parseCsvShape (t ++ ' ' :: vstr) = none := by
      refine parseCsvShape_none_of_noComma _ fun c hc => ?_
      rcases List.mem_append.1 hc with hc | hc
      · exact htc c hc
      · rcases List.mem_cons.1 hc with rfl | hc
        · decide
        · exact hvc c hc
    show (telemetryPass (diagPass st src (t ++ ' ' :: vstr)) src
      (t ++ ' ' :: vstr)).2 = []
    unfold telemetryPass
    rw [hps, hcsv]

-- ### Character facts about identifier windows

theorem isHexC_not_space (c : Char) (h : isHexC c = true) : isSpaceC c = false := by
  by_contra hs
  rw [Bool.not_eq_false] at hs
  simp only [isSpaceC, Bool.or_eq_true, decide_eq_true_eq] at hs
  rcases hs with ((((rfl | rfl) | rfl) | rfl) | rfl) | rfl <;> revert h <;> decide

theorem isHexC_ne_comma (c : Char) (h : isHexC c = true) : c ≠ ',' := by
  rintro rfl
  revert h
  decide

theorem mem_exists_getD (w : CStr) (c : Char) (h : c ∈ w) :
    ∃ i, i < w.length ∧ w.getD i ' ' = c := by
  induction w with
  | nil => simp at h
  | cons a w ih =>
    rcases List.mem_cons.1 h with rfl | h
    · exact ⟨0, by simp, rfl⟩
    · obtain ⟨i, hi, hg⟩ := ih h
      exact ⟨i + 1, by simpa using Nat.succ_lt_succ hi, hg⟩

-- Every character of a valid identifier window is a hex digit or ':',
-- hence neither whitespace nor a comma.
theorem macWindow_chars (w : CStr) (h : macWindowOk w = true) :
    ∀ c ∈ w, isSpaceC c = false ∧ c ≠ ',' := by
  intro c hc
  simp only [macWindowOk, Bool.and_eq_true, decide_eq_true_eq, List.all_eq_true] at h
  obtain ⟨hlen, hall⟩ := h
  obtain ⟨i, hi, hg⟩ := mem_exists_getD w c hc
  have hi17 : i < 17 := by omega
  have hp := hall i (List.mem_range.2 hi17)
  by_cases h3 : i % 3 = 2
  · rw [if_pos h3] at hp
    rw [hg] at hp
    have hcc : c = ':' := by simpa using hp
    subst hcc
    exact ⟨by decide, by decide⟩
  · rw [if_neg h3] at hp
    rw [hg] at hp
    exact ⟨isHexC_not_space c hp, isHexC_ne_comma c hp⟩

theorem macWindow_length (w : CStr) (h : macWindowOk w = true) : w.length = 17 := by
  simp only [macWindowOk, Bool.and_eq_true, decide_eq_true_eq] at h
  exact h.1

-- ### Telemetry forwarding (C3, C9, C10)

/-- C3 (amended): for a payload `id ++ " " ++ vstr` whose leading token is
an identifier window and whose value field contains no comma: if the `%f`
parse of the field yields `v` (scanf semantics: the longest numeric prefix)
with `0 ≤ v ≤ 5`, exactly one reading `(id, v)` is forwarded and the
session keyed `id` ends up holding the packet's source address, created if
capacity allows; if the parse yields an out-of-range value or fails, zero
readings are forwarded.  (As stated the claim is false: a field with a
numeric prefix such as `"1.5x"` is malformed as a numeral yet forwards one
reading, and a comma in the field can trigger the comma shape instead.) -/
theorem gateway_telemetry_reading (st : Registry) (src : Addr) (id vstr : CStr)
    (hid : macWindowOk id = true) (hvc : ∀ c ∈ vstr, c ≠ ',') :
    (∀ v r2, scanF vstr = some (v, r2) →
      ((0 ≤ v ∧ v ≤ 5) →
        (processPacket st src (id ++ ' ' :: vstr)).2 = [(id, v)] ∧
        (((∃ e ∈ st, e.mac = id) ∨ st.length < SERVER_MAP_MAX) →
          ∃ e ∈ (processPacket st src (id ++ ' ' :: vstr)).1,
            e.mac = id ∧ e.addr = src)) ∧
      (¬(0 ≤ v ∧ v ≤ 5) → (processPacket st src (id ++ ' ' :: vstr)).2 = [])) ∧
    (scanF vstr = none → (processPacket st src (id ++ ' ' :: vstr)).2 = []) := by
  have hlen : id.length = 17 := macWindow_length id hid
  have htne : id ≠ [] := by
    intro h
    rw [h] at hlen
    simp at hlen
  have ht : ∀ c ∈ id, isSpaceC c = false := fun c hc => (macWindow_chars id hid c hc).1
  have htc : ∀ c ∈ id, c ≠ ',' := fun c hc => (macWindow_chars id hid c hc).2
  obtain ⟨hA, hB⟩ := processPacket_space st src id vstr htne ht (by omega)
  exact ⟨hA, fun hf => hB hf htc hvc⟩

/-- Witness for the amended C3 on the spec's example payload
`"aa:bb:cc:dd:ee:ff 3.20"`: the reading `(aa:bb:cc:dd:ee:ff, 3.2)` is
forwarded once and the session holds the packet's source address. -/
theorem gateway_telemetry_reading_witness :
    (macWindowOk "aa:bb:cc:dd:ee:ff".toList = true) ∧
    (scanF "3.20".toList = some (mkRat 16 5, [])) ∧
    (processPacket [] ⟨5, 6⟩ ("aa:bb:cc:dd:ee:ff".toList ++ ' ' :: "3.20".toList)).2 =
      [("aa:bb:cc:dd:ee:ff".toList, mkRat 16 5)] ∧
    (∃ e ∈ (processPacket [] ⟨5, 6⟩
        ("aa:bb:cc:dd:ee:ff".toList ++ ' ' :: "3.20".toList)).1,
      e.mac = "aa:bb:cc:dd:ee:ff".toList ∧ e.addr = ⟨5, 6⟩) :=
  ⟨by decide, by decide,
   (((gateway_telemetry_reading [] ⟨5, 6⟩ "aa:bb:cc:dd:ee:ff".toList "3.20".toList
       (by decide) (by decide)).1 (mkRat 16 5) [] (by decide)).1 (by decide)).1,
   (((gateway_telemetry_reading [] ⟨5, 6⟩ "aa:bb:cc:dd:ee:ff".toList "3.20".toList
       (by decide) (by decide)).1 (mkRat 16 5) [] (by decide)).1 (by decide)).2
     (Or.inr (by decide))⟩

/-- Counterexample to C3 as stated: the payload
`"aa:bb:cc:dd:ee:ff 1.5x"` has a malformed numeric field, yet the gateway
forwards one reading `(aa:bb:cc:dd:ee:ff, 1.5)` — `sscanf` converts the
numeric prefix of the field. -/
theorem gateway_malformed_field_counterexample :
    (processPacket [] ⟨1, 1⟩ ("aa:bb:cc:dd:ee:ff 1.5x".toList)).2 =
      [("aa:bb:cc:dd:ee:ff".toList, mkRat 3 2)] ∧
    (processPacket [] ⟨1, 1⟩ ("aa:bb:cc:dd:ee:ff 1.5x".toList)).2 ≠ [] := by
  decide

/-- C10 (amended): the telemetry parse does not require the leading token
to be identifier-shaped, but it does bound it to 31 bytes: for every
payload `tok ++ " " ++ vstr` whose first whitespace-delimited token has no
colon and at most 31 characters, and whose value parses in range, one
reading `(tok, v)` is forwarded and a session keyed `tok` holds the source
address (created if capacity allows).  (As stated the claim is false for
tokens longer than 31 characters, which `%31s` truncates.) -/
theorem gateway_noncolon_token (st : Registry) (src : Addr) (tok vstr : CStr)
    (v : ℚ) (r2 : CStr)
    (h1 : tok ≠ []) (h2 : ∀ c ∈ tok, isSpaceC c = false)
    (_h3 : tok.contains ':' = false) (h4 : tok.length ≤ 31)
    (h5 : scanF vstr = some (v, r2)) (h6 : 0 ≤ v ∧ v ≤ 5)
    (hcap : (∃ e ∈ st, e.mac = tok) ∨ st.length < SERVER_MAP_MAX) :
    (processPacket st src (tok ++ ' ' :: vstr)).2 = [(tok, v)] ∧
    ∃ e ∈ (processPacket st src (tok ++ ' ' :: vstr)).1,
      e.mac = tok ∧ e.addr = src := by
  have h := (processPacket_space st src tok vstr h1 h2 h4).1 v r2 h5
  exact ⟨(h.1 h6).1, (h.1 h6).2 hcap⟩

/-- Witness for the amended C10: the non-identifier token `"plant1"` with
value `1.5` is forwarded and gets a session. -/
theorem gateway_noncolon_token_witness :
    ("plant1".toList ≠ ([] : CStr)) ∧
    (scanF "1.5".toList = some (mkRat 3 2, [])) ∧
    (processPacket [] ⟨3, 4⟩ ("plant1".toList ++ ' ' :: "1.5".toList)).2 =
      [("plant1".toList, mkRat 3 2)] ∧
    (∃ e ∈ (processPacket [] ⟨3, 4⟩ ("plant1".toList ++ ' ' :: "1.5".toList)).1,
      e.mac = "plant1".toList ∧ e.addr = ⟨3, 4⟩) :=
  ⟨by decide, by decide,
   (gateway_noncolon_token [] ⟨3, 4⟩ "plant1".toList "1.5".toList (mkRat 3 2) []
      (by decide) (by decide) (by decide) (by decide) (by decide) (by decide)
      (Or.inr (by decide))).1,
   (gateway_noncolon_token [] ⟨3, 4⟩ "plant1".toList "1.5".toList (mkRat 3 2) []
      (by decide) (by decide) (by decide) (by decide) (by decide) (by decide)
      (Or.inr (by decide))).2⟩

/-- Counterexample to C10 as stated: a 32-character colon-free token with
an in-range value forwards nothing and creates no session — `%31s` reads
only 31 characters and the remaining `'z'` makes the `%f` conversion
fail. -/
theorem gateway_long_token_counterexample :
    processPacket [] ⟨1, 1⟩ (List.replicate 32 'z' ++ " 1.5".toList) = ([], []) := by
  decide

/-- C9 (amended): the space- and comma-separated shapes forward the same
single reading `(id, v)` for every whitespace- and comma-free identifier
and every in-range value — provided the whole comma payload fits in the 31
characters consumed by the `%31s` scan of the space shape (otherwise that
scan splits the comma payload and forwards a different reading). -/
theorem gateway_shape_equiv (stA stB : Registry) (srcA srcB : Addr)
    (id vstr : CStr) (v : ℚ) (r2 : CStr)
    (hidne : id ≠ []) (hidw : ∀ c ∈ id, isSpaceC c = false)
    (hidc : ∀ c ∈ id, c ≠ ',') (hvw : ∀ c ∈ vstr, isSpaceC c = false)
    (hlen : id.length + 1 + vstr.length ≤ 31)
    (hp : scanF vstr = some (v, r2)) (hr : 0 ≤ v ∧ v ≤ 5) :
    (processPacket stA srcA (id ++ ' ' :: vstr)).2 = [(id, v)] ∧
    (processPacket stB srcB (id ++ ',' :: vstr)).2 = [(id, v)] := by
  constructor
  · exact (((processPacket_space stA srcA id vstr hidne hidw (by omega)).1
      v r2 hp).1 hr).1
  · have hallw : ∀ c ∈ id ++ ',' :: vstr, isSpaceC c = false := by
      intro c hc
      rcases List.mem_append.1 hc with hc | hc
      · exact hidw c hc
      · rcases List.mem_cons.1 hc with rfl | hc
        · decide
        · exact hvw c hc
    have hne : id ++ ',' :: vstr ≠ [] := by
      intro h
      exact hidne (List.append_eq_nil.1 h).1
    have hplen : (id ++ ',' :: vstr).length ≤ 31 := by
      simp only [List.length_append, List.length_cons]
      omega
    have hpsnone : parseSpaceShape (id ++ ',' :: vstr) = none :=
      parseSpaceShape_none_short _ hne hallw hplen
    have hcsv : parseCsvShape (id ++ ',' :: vstr) = some (id, v) := by
      unfold parseCsvShape
      rw [takeNoComma_append id (',' :: vstr) 31 hidc (by omega) (Or.inr ⟨vstr, rfl⟩)]
      simp only [hidne, ite_false, hp]
    show (telemetryPass _ srcB (id ++ ',' :: vstr)).2 = [(id, v)]
    unfold telemetryPass
    rw [hpsnone, hcsv]
    simp [hr]

/-- Witness for the amended C9: `"aa:bb:cc:dd:ee:ff 1.5"` and
`"aa:bb:cc:dd:ee:ff,1.5"` both forward the single reading
`(aa:bb:cc:dd:ee:ff, 1.5)`. -/
theorem gateway_shape_equiv_witness :
    (("aa:bb:cc:dd:ee:ff".toList).length + 1 + ("1.5".toList).length ≤ 31) ∧
    (processPacket [] ⟨1, 1⟩
        ("aa:bb:cc:dd:ee:ff".toList ++ ' ' :: "1.5".toList)).2 =
      [("aa:bb:cc:dd:ee:ff".toList, mkRat 3 2)] ∧
    (processPacket [] ⟨2, 2⟩
        ("aa:bb:cc:dd:ee:ff".toList ++ ',' :: "1.5".toList)).2 =
      [("aa:bb:cc:dd:ee:ff".toList, mkRat 3 2)] :=
  ⟨by decide,
   (gateway_shape_equiv [] [] ⟨1, 1⟩ ⟨2, 2⟩ "aa:bb:cc:dd:ee:ff".toList "1.5".toList
      (mkRat 3 2) [] (by decide) (by decide) (by decide) (by decide) (by decide)
      (by decide) (by decide)).1,
   (gateway_shape_equiv [] [] ⟨1, 1⟩ ⟨2, 2⟩ "aa:bb:cc:dd:ee:ff".toList "1.5".toList
      (mkRat 3 2) [] (by decide) (by decide) (by decide) (by decide) (by decide)
      (by decide) (by decide)).2⟩

/-- Counterexample to C9 as stated: for the identifier
`aa:bb:cc:dd:ee:ff` and the value `0.5` rendered as
`"0.50000000000000"`, the space payload forwards
`(aa:bb:cc:dd:ee:ff, 0.5)` but the comma payload is split by the `%31s`
scan after 31 characters and forwards
`("aa:bb:cc:dd:ee:ff,0.50000000000", 0)` — a different reading. -/
theorem gateway_shape_equiv_counterexample :
    (processPacket [] ⟨1, 1⟩ ("aa:bb:cc:dd:ee:ff 0.50000000000000".toList)).2 =
      [("aa:bb:cc:dd:ee:ff".toList, mkRat 1 2)] ∧
    (processPacket [] ⟨1, 1⟩ ("aa:bb:cc:dd:ee:ff,0.50000000000000".toList)).2 =
      [("aa:bb:cc:dd:ee:ff,0.50000000000".toList, 0)] ∧
    (processPacket [] ⟨1, 1⟩ ("aa:bb:cc:dd:ee:ff,0.50000000000000".toList)).2 ≠
      [("aa:bb:cc:dd:ee:ff".toList, mkRat 1 2)] := by
  decide

-- ### Capacity and identifier uniqueness (C7)

theorem nodup_append_singleton (l : List α) (a : α) (h : l.Nodup) (ha : a ∉ l) :
    (l ++ [a]).Nodup := by
  rw [List.nodup_append]
  refine ⟨h, List.nodup_singleton a, ?_⟩
  intro x hx hxa
  rw [List.mem_singleton] at hxa
  subst hxa
  exact ha hx

theorem not_mem_macs_of_findIdxP_none (st : Registry) (x : CStr)
    (h : findIdxP (fun e => e.mac = x) st = none) :
    x ∉ st.map (fun e => e.mac) := by
  intro hx
  obtain ⟨e, he, hem⟩ := List.mem_map.1 hx
  have := (findIdxP_none_iff (fun e => e.mac = x) st).1 h e he
  simp [hem] at this

theorem not_mem_macs_of_caseFindIdxP_none (st : Registry) (x : CStr)
    (h : findIdxP (fun e => strCaseEq e.mac x) st = none) :
    x ∉ st.map (fun e => e.mac) := by
  intro hx
  obtain ⟨e, he, hem⟩ := List.mem_map.1 hx
  have := (findIdxP_none_iff (fun e => strCaseEq e.mac x) st).1 h e he
  rw [strCaseEq_of_eq e.mac x hem] at this
  simp at this
/-- C7 (amended): the registry never grows beyond 32 sessions, and once it
holds 32 identifiers processing any packet leaves the identifier column
unchanged — a never-seen identifier-shaped token is then attributed to the
session matching the packet's source address (log append plus report-format
state update) or dropped entirely.  Identifiers stay pairwise distinct
provided identifier-shaped first tokens are at most 31 characters; the
`strncpy` truncation of a longer token to 31 bytes can duplicate an
existing identifier. -/
theorem gateway_capacity (st : Registry) (src : Addr) (buf : CStr)
    (hlen : st.length ≤ SERVER_MAP_MAX) :
    (processPacket st src buf).1.length ≤ SERVER_MAP_MAX ∧
    (st.length = SERVER_MAP_MAX →
      (processPacket st src buf).1.map (fun e => e.mac) =
        st.map (fun e => e.mac)) ∧
    ((st.map (fun e => e.mac)).Nodup →
      (∀ t r, scanS 63 buf = some (t, r) → t.contains ':' = true →
        t.length ≤ 31) →
      ((processPacket st src buf).1.map (fun e => e.mac)).Nodup) ∧
    (st.length = SERVER_MAP_MAX →
      ∀ t r, scanS 63 buf = some (t, r) → t.contains ':' = true →
        findIdxP (fun e => strCaseEq e.mac t) st = none →
        ((∀ e ∈ st, e.addr.ip ≠ src.ip) → diagPass st src buf = st) ∧
        (∀ i, findIdxP (fun e => e.addr.ip = src.ip) st = some i →
          diagPass st src buf =
            modifyIdx (fun e => updateOutputStateCP buf (addLogLine e buf)) i st)) := by
  have hd := diagPass_macs st src buf
  have ht := telemetryPass_macs (diagPass st src buf) src buf
  simp only [processPacket]
  refine ⟨?_, ?_, ?_, ?_⟩
  · -- length bound
    rcases hd with hd | ⟨t, r, _, _, _, hroom, hd⟩ <;>
      rcases ht with htc | ⟨mac, _, hroom2, htc⟩ <;>
      · have e1 := congrArg List.length hd
        have e2 := congrArg List.length htc
        simp only [List.length_map, List.length_append, List.length_singleton] at e1 e2
        omega
  · -- full table: identifier column unchanged
    intro hfull
    rcases hd with hd | ⟨t, r, _, _, _, hroom, hd⟩
    · rcases ht with htc | ⟨mac, _, hroom2, htc⟩
      · rw [htc, hd]
      · have e1 := congrArg List.length hd
        simp only [List.length_map] at e1
        omega
    · omega
  · -- uniqueness, under the 31-byte token bound
    intro hnd htok
    have hnd1 : ((diagPass st src buf).map (fun e => e.mac)).Nodup := by
      rcases hd with hd | ⟨t, r, hscan, hcol, hfind, hroom, hd⟩
      · rw [hd]; exact hnd
      · rw [hd]
        have ht31 : t.length ≤ 31 := htok t r hscan hcol
        have htr : truncTo 31 t = t := List.take_of_length_le ht31
        rw [htr]
        exact nodup_append_singleton _ t hnd
          (not_mem_macs_of_caseFindIdxP_none st t hfind)
    rcases ht with htc | ⟨mac, hfind2, hroom2, htc⟩
    · rw [htc]; exact hnd1
    · rw [htc]
      exact nodup_append_singleton _ mac hnd1
        (not_mem_macs_of_findIdxP_none _ mac hfind2)
  · -- full table, unknown identifier-shaped token: source-address
    -- attribution or dropped
    intro hfull t r hscan hcol hfind
    have hnl : ¬ st.length < SERVER_MAP_MAX := by omega
    constructor
    · intro hnoip
      have haddr : findIdxP (fun e => e.addr.ip = src.ip) st = none := by
        rw [findIdxP_none_iff]
        intro e he
        simpa using hnoip e he
      unfold diagPass
      rw [hscan]
      simp only [hcol, if_true, hfind, hnl, ite_false, haddr]
    · intro i hi
      unfold diagPass
      rw [hscan]
      simp only [hcol, if_true, hfind, hnl, ite_false, hi]

/-- Witness for the amended C7 at a concrete input: an empty registry and a
well-formed telemetry packet. -/
theorem gateway_capacity_witness :
    (([] : Registry).length ≤ SERVER_MAP_MAX) ∧
    ((processPacket [] ⟨1, 1⟩ "aa:bb:cc:dd:ee:ff 1.0".toList).1.length ≤
        SERVER_MAP_MAX ∧
      (([] : Registry).length = SERVER_MAP_MAX →
        (processPacket [] ⟨1, 1⟩ "aa:bb:cc:dd:ee:ff 1.0".toList).1.map
            (fun e => e.mac) =
          ([] : Registry).map (fun e => e.mac)) ∧
      ((([] : Registry).map (fun e => e.mac)).Nodup →
        (∀ t r, scanS 63 "aa:bb:cc:dd:ee:ff 1.0".toList = some (t, r) →
          t.contains ':' = true → t.length ≤ 31) →
        ((processPacket [] ⟨1, 1⟩ "aa:bb:cc:dd:ee:ff 1.0".toList).1.map
          (fun e => e.mac)).Nodup) ∧
      (([] : Registry).length = SERVER_MAP_MAX →
        ∀ t r, scanS 63 "aa:bb:cc:dd:ee:ff 1.0".toList = some (t, r) →
          t.contains ':' = true →
          findIdxP (fun e => strCaseEq e.mac t) ([] : Registry) = none →
          ((∀ e ∈ ([] : Registry), e.addr.ip ≠ (⟨1, 1⟩ : Addr).ip) →
            diagPass [] ⟨1, 1⟩ "aa:bb:cc:dd:ee:ff 1.0".toList = []) ∧
          (∀ i, findIdxP (fun e => e.addr.ip = (⟨1, 1⟩ : Addr).ip)
              ([] : Registry) = some i →
            diagPass [] ⟨1, 1⟩ "aa:bb:cc:dd:ee:ff 1.0".toList =
              modifyIdx (fun e => updateOutputStateCP
                "aa:bb:cc:dd:ee:ff 1.0".toList
                (addLogLine e "aa:bb:cc:dd:ee:ff 1.0".toList)) i []))) :=
  ⟨by decide, gateway_capacity [] ⟨1, 1⟩ "aa:bb:cc:dd:ee:ff 1.0".toList (by decide)⟩

/-- Counterexample to C7 as stated: identifiers are not always unique.  A
first packet registers the 31-character identifier `aaa…a`; a second packet
whose identifier-shaped token `aaa…a:0` (33 characters) is unknown under
`strcasecmp` is truncated by `strncpy` to 31 bytes on creation, producing a
second session with the same identifier. -/
theorem gateway_duplicate_id_counterexample :
    ((processPacket
        (processPacket [] ⟨1, 1⟩ (List.replicate 31 'a' ++ " 1.0".toList)).1
        ⟨2, 2⟩ (List.replicate 31 'a' ++ ":0 1.0".toList)).1.map
      (fun e => e.mac)) = [List.replicate 31 'a', List.replicate 31 'a'] ∧
    ¬ ((processPacket
        (processPacket [] ⟨1, 1⟩ (List.replicate 31 'a' ++ " 1.0".toList)).1
        ⟨2, 2⟩ (List.replicate 31 'a' ++ ":0 1.0".toList)).1.map
      (fun e => e.mac)).Nodup := by
  decide

-- ### Ring buffer (C8)

theorem getD_set_self (l : List α) (i : Nat) (v d : α) (h : i < l.length) :
    (l.set i v).getD i d = v := by
  induction l generalizing i with
  | nil => simp at h
  | cons a l ih =>
    cases i with
    | zero => rfl
    | succ i => exact ih i (by simpa using Nat.lt_of_succ_lt_succ h)

theorem getD_set_ne (l : List α) (i j : Nat) (v d : α) (h : i ≠ j) :
    (l.set i v).getD j d = l.getD j d := by
  induction l generalizing i j with
  | nil => cases i <;> rfl
  | cons a l ih =>
    cases i with
    | zero =>
      cases j with
      | zero => exact absurd rfl h
      | succ j => rfl
    | succ i =>
      cases j with
      | zero => rfl
      | succ j => exact ih i j (fun hh => h (by rw [hh]))

theorem ringSeg_length (logs : List CStr) (p n : Nat) :
    (ringSeg logs p n).length = n := by
  simp [ringSeg]

theorem ringSeg_succ (logs : List CStr) (p n : Nat) :
    ringSeg logs p (n + 1) =
      ringSeg logs p n ++ [logs.getD ((p + n) % SERVER_LOG_LINES) []] := by
  simp [ringSeg, List.range_succ]

theorem ringSeg_set_notin (logs : List CStr) (p n h : Nat) (v : CStr)
    (hh : ∀ i, i < n → (p + i) % SERVER_LOG_LINES ≠ h) :
    ringSeg (logs.set h v) p n = ringSeg logs p n := by
  induction n with
  | zero => rfl
  | succ n ih =>
    rw [ringSeg_succ, ringSeg_succ, ih (fun i hi => hh i (by omega)),
      getD_set_ne logs h ((p + n) % SERVER_LOG_LINES) v [] (fun he => hh n (by omega) he.symm)]

theorem ringSeg_drop_one (logs : List CStr) (p n : Nat) :
    (ringSeg logs p (n + 1)).drop 1 = ringSeg logs (p + 1) n := by
  unfold ringSeg
  rw [List.range_succ_eq_map]
  simp only [List.map_cons, List.map_map, List.drop_succ_cons, List.drop_zero]
  refine List.map_congr_left fun i _ => ?_
  simp only [Function.comp_apply]
  congr 1
  simp only [SERVER_LOG_LINES]
  omega

theorem ringSeg_mod (logs : List CStr) (p n : Nat) :
    ringSeg logs (p % SERVER_LOG_LINES) n = ringSeg logs p n := by
  unfold ringSeg
  refine List.map_congr_left fun i _ => ?_
  congr 1
  simp only [SERVER_LOG_LINES]
  omega

theorem getD_mem_ringSeg (logs : List CStr) (p n i : Nat) (h : i < n) :
    logs.getD ((p + i) % SERVER_LOG_LINES) [] ∈ ringSeg logs p n := by
  unfold ringSeg
  exact List.mem_map.2 ⟨i, List.mem_range.2 h, rfl⟩

theorem lastN_of_le (n : Nat) (l : List α) (h : l.length ≤ n) : lastN n l = l := by
  unfold lastN
  rw [Nat.sub_eq_zero_of_le h, List.drop_zero]

theorem lastN_append_of_ge (n : Nat) (l : List α) (x : α) (h : n ≤ l.length)
    (hn : 0 < n) : lastN n (l ++ [x]) = (lastN n l).drop 1 ++ [x] := by
  unfold lastN
  simp only [List.length_append, List.length_singleton]
  rw [List.drop_append_of_le_length (by omega), List.drop_drop]
  congr 2
  omega

theorem ringSeg_64 (logs : List CStr) (p : Nat) :
    ringSeg logs p 64 =
      ringSeg logs p 63 ++ [logs.getD ((p + 63) % SERVER_LOG_LINES) []] :=
  ringSeg_succ logs p 63

theorem ringSeg_drop_64 (logs : List CStr) (p : Nat) :
    (ringSeg logs p 64).drop 1 = ringSeg logs (p + 1) 63 :=
  ringSeg_drop_one logs p 63

-- Invariants of an entry built by appending `lines` to a fresh session:
-- cursors, byte bounds, and the stored window `ringOf` being exactly the
-- last 64 appended lines (truncated), oldest to newest.
theorem foldl_addLogLine_spec (mac : CStr) (src : Addr) (lines : List CStr) :
    (lines.foldl addLogLine (freshEntry mac src)).mac = mac ∧
    (lines.foldl addLogLine (freshEntry mac src)).addr = src ∧
    (lines.foldl addLogLine (freshEntry mac src)).logs.length = SERVER_LOG_LINES ∧
    (lines.foldl addLogLine (freshEntry mac src)).logHead =
      lines.length % SERVER_LOG_LINES ∧
    (lines.foldl addLogLine (freshEntry mac src)).logCount =
      min lines.length SERVER_LOG_LINES ∧
    (∀ l ∈ (lines.foldl addLogLine (freshEntry mac src)).logs, l.length ≤ 127) ∧
    ringOf (lines.foldl addLogLine (freshEntry mac src)) =
      lastN SERVER_LOG_LINES (lines.map (truncTo 127)) := by
  induction lines using List.reverseRecOn with
  | nil =>
    refine ⟨rfl, rfl, ?_, rfl, rfl, ?_, rfl⟩
    · have hfl : (freshEntry mac src).logs = List.replicate SERVER_LOG_LINES [] := rfl
      rw [List.foldl_nil, hfl, List.length_replicate]
    intro l hl
    have hl2 : l ∈ List.replicate SERVER_LOG_LINES ([] : CStr) := hl
    rw [List.eq_of_mem_replicate hl2]
    decide
  | append_singleton ls x ih =>
    obtain ⟨hmac, haddr, hlen, hhead, hcount, hchars, hring⟩ := ih
    rw [List.foldl_append, List.foldl_cons, List.foldl_nil]
    have h64 : SERVER_LOG_LINES = 64 := rfl
    have hheadlt : (ls.foldl addLogLine (freshEntry mac src)).logHead < 64 := by
      rw [hhead, h64]
      omega
    refine ⟨hmac, haddr, ?_, ?_, ?_, ?_, ?_⟩
    · simp [addLogLine, append_live_text, List.length_set, hlen]
    · simp only [addLogLine, append_live_text, List.length_append,
        List.length_singleton, hhead, h64]
      omega
    · simp only [addLogLine, append_live_text, hcount, List.length_append,
        List.length_singleton, h64]
      split_ifs with hc <;> omega
    · intro l hl
      simp only [addLogLine, append_live_text] at hl
      rcases List.mem_or_eq_of_mem_set hl with hl | rfl
      · exact hchars l hl
      · simp [truncTo]
    · by_cases hlt : ls.length < 64
      · -- the table is still filling up: the window is the whole history
        have hc : (ls.foldl addLogLine (freshEntry mac src)).logCount = ls.length := by
          rw [hcount, h64]
          omega
        have hh : (ls.foldl addLogLine (freshEntry mac src)).logHead = ls.length := by
          rw [hhead, h64]
          omega
        have hstart0 : ringOf (ls.foldl addLogLine (freshEntry mac src)) =
            ringSeg (ls.foldl addLogLine (freshEntry mac src)).logs 0 ls.length := by
          unfold ringOf
          rw [hc, hh, h64]
          congr 1
          omega
        unfold ringOf
        simp only [addLogLine, append_live_text, hc, hh, h64, if_pos hlt]
        have hstart0' : ((ls.length + 1) % 64 + 64 - (ls.length + 1)) % 64 = 0 := by
          omega
        rw [hstart0']
        rw [ringSeg_succ]
        have hidx : (0 + ls.length) % SERVER_LOG_LINES = ls.length := by
          rw [h64]
          omega
        rw [hidx]
        rw [getD_set_self _ _ _ _ (by rw [hlen, h64]; omega)]
        rw [ringSeg_set_notin _ _ _ _ _ (by intro i hi; rw [h64]; omega)]
        rw [← hstart0, hring]
        rw [lastN_of_le _ _ (by simp [h64]; omega),
          lastN_of_le _ _ (by simp [h64]; omega)]
        simp
      · -- the table is full: the oldest line is evicted
        have hge : 64 ≤ ls.length := by omega
        have hc : (ls.foldl addLogLine (freshEntry mac src)).logCount = 64 := by
          rw [hcount, h64]
          omega
        have hofe : ringOf (ls.foldl addLogLine (freshEntry mac src)) =
            ringSeg (ls.foldl addLogLine (freshEntry mac src)).logs
              (ls.foldl addLogLine (freshEntry mac src)).logHead 64 := by
          unfold ringOf
          rw [hc, h64]
          congr 1
          omega
        unfold ringOf
        simp only [addLogLine, append_live_text, hc, h64,
          if_neg (by omega : ¬ (64 : Nat) < 64)]
        have hstart' : (((ls.foldl addLogLine (freshEntry mac src)).logHead + 1) % 64
            + 64 - 64) % 64 =
            ((ls.foldl addLogLine (freshEntry mac src)).logHead + 1) % 64 := by
          omega
        rw [hstart', ringSeg_64]
        have hidx : (((ls.foldl addLogLine (freshEntry mac src)).logHead + 1) % 64 + 63)
            % SERVER_LOG_LINES = (ls.foldl addLogLine (freshEntry mac src)).logHead := by
          simp only [SERVER_LOG_LINES]
          omega
        rw [hidx, getD_set_self _ _ _ _ (by rw [hlen, h64]; exact hheadlt)]
        rw [ringSeg_set_notin _ _ _ _ _ (by
          intro i hi
          simp only [SERVER_LOG_LINES]
          omega)]
        have hmod : ringSeg (ls.foldl addLogLine (freshEntry mac src)).logs
            (((ls.foldl addLogLine (freshEntry mac src)).logHead + 1) % 64) 63 =
            ringSeg (ls.foldl addLogLine (freshEntry mac src)).logs
              ((ls.foldl addLogLine (freshEntry mac src)).logHead + 1) 63 := by
          have hm := ringSeg_mod (ls.foldl addLogLine (freshEntry mac src)).logs
            ((ls.foldl addLogLine (freshEntry mac src)).logHead + 1) 63
          rw [h64] at hm
          exact hm
        have hdrop : (ringOf (ls.foldl addLogLine (freshEntry mac src))).drop 1 =
            ringSeg (ls.foldl addLogLine (freshEntry mac src)).logs
              ((ls.foldl addLogLine (freshEntry mac src)).logHead + 1) 63 := by
          rw [hofe, ringSeg_drop_64]
        rw [hmod, ← hdrop, hring, h64]
        rw [List.map_append, List.map_cons, List.map_nil]
        rw [lastN_append_of_ge 64 _ _ (by simp only [List.length_map]; omega)
          (by decide)]
  
-- When every walked slot is nonempty, at most 127 bytes, and the buffer is
-- large enough, the collection loop gathers exactly the ring segment.
theorem collectLogs_all (logs : List CStr) (outbuflen : Nat) (n : Nat) :
    ∀ p used : Nat,
      (∀ i, i < n → logs.getD ((p + i) % SERVER_LOG_LINES) [] ≠ [] ∧
        (logs.getD ((p + i) % SERVER_LOG_LINES) []).length ≤ 127) →
      used + n * 129 < outbuflen →
      collectLogs logs outbuflen n p used = ringSeg logs p n := by
  induction n with
  | zero => intro p used _ _; rfl
  | succ n ih =>
    intro p used hok hbud
    have h0 := hok 0 (by omega)
    rw [Nat.add_zero] at h0
    unfold collectLogs
    rw [if_neg h0.1]
    rw [if_neg (by omega : ¬ outbuflen ≤ used +
      (logs.getD (p % SERVER_LOG_LINES) []).length + 2)]
    have hshift : ∀ i, i < n → logs.getD ((p + 1 + i) % SERVER_LOG_LINES) [] ≠ [] ∧
        (logs.getD ((p + 1 + i) % SERVER_LOG_LINES) []).length ≤ 127 := by
      intro i hi
      have := hok (i + 1) (by omega)
      rwa [show p + (i + 1) = p + 1 + i by omega] at this
    rw [ih (p + 1) _ hshift (by omega)]
    have hcons : ringSeg logs p (n + 1) =
        logs.getD (p % SERVER_LOG_LINES) [] :: ringSeg logs (p + 1) n := by
      unfold ringSeg
      rw [List.range_succ_eq_map]
      simp only [List.map_cons, List.map_map, Nat.add_zero]
      congr 1
      refine List.map_congr_left fun i _ => ?_
      simp only [Function.comp_apply]
      congr 1
      simp only [SERVER_LOG_LINES]
      omega
    rw [hcons]

/-- C8: a session's ring buffer never holds more than 64 entries — after
more than 64 appended lines the count is exactly 64 — every stored entry is
truncated to at most 127 bytes, and `server_get_logs_for_mac`, given an
output buffer large enough, returns exactly the last 64 appended lines
(in their stored, truncated form) oldest to newest, joined by newlines. -/
theorem gateway_ring_buffer (mac : CStr) (src : Addr) (lines : List CStr)
    (outbuflen : Nat) (h64 : 64 < lines.length) (hne : ∀ l ∈ lines, l ≠ [])
    (hbuf : 8256 < outbuflen) :
    (lines.foldl addLogLine (freshEntry mac src)).logCount = SERVER_LOG_LINES ∧
    (∀ l ∈ (lines.foldl addLogLine (freshEntry mac src)).logs, l.length ≤ 127) ∧
    server_get_logs_for_mac [lines.foldl addLogLine (freshEntry mac src)] mac
        outbuflen =
      some (joinNL (lastN SERVER_LOG_LINES (lines.map (truncTo 127)))) := by
  obtain ⟨hmac, haddr, hlen, hhead, hcount, hchars, hring⟩ :=
    foldl_addLogLine_spec mac src lines
  have hsl : SERVER_LOG_LINES = 64 := rfl
  have hc64 : (lines.foldl addLogLine (freshEntry mac src)).logCount = 64 := by
    rw [hcount, hsl]
    omega
  refine ⟨by rw [hc64, hsl], hchars, ?_⟩
  unfold server_get_logs_for_mac
  rw [if_neg (by omega : ¬ outbuflen = 0)]
  have hfind : findIdxP (fun e => strCaseEq e.mac mac)
      [lines.foldl addLogLine (freshEntry mac src)] = some 0 := by
    simp [findIdxP, strCaseEq_of_eq _ _ hmac]
  rw [hfind]
  simp only [List.getD_cons_zero]
  have hok : ∀ i, i < (lines.foldl addLogLine (freshEntry mac src)).logCount →
      (lines.foldl addLogLine (freshEntry mac src)).logs.getD
        ((((lines.foldl addLogLine (freshEntry mac src)).logHead + SERVER_LOG_LINES -
          (lines.foldl addLogLine (freshEntry mac src)).logCount) % SERVER_LOG_LINES + i)
          % SERVER_LOG_LINES) [] ≠ [] ∧
      ((lines.foldl addLogLine (freshEntry mac src)).logs.getD
        ((((lines.foldl addLogLine (freshEntry mac src)).logHead + SERVER_LOG_LINES -
          (lines.foldl addLogLine (freshEntry mac src)).logCount) % SERVER_LOG_LINES + i)
          % SERVER_LOG_LINES) []).length ≤ 127 := by
    intro i hi
    have hm : (lines.foldl addLogLine (freshEntry mac src)).logs.getD
        ((((lines.foldl addLogLine (freshEntry mac src)).logHead + SERVER_LOG_LINES -
          (lines.foldl addLogLine (freshEntry mac src)).logCount) % SERVER_LOG_LINES + i)
          % SERVER_LOG_LINES) [] ∈ ringOf (lines.foldl addLogLine (freshEntry mac src)) :=
      getD_mem_ringSeg (lines.foldl addLogLine (freshEntry mac src)).logs
        (((lines.foldl addLogLine (freshEntry mac src)).logHead + SERVER_LOG_LINES -
          (lines.foldl addLogLine (freshEntry mac src)).logCount) % SERVER_LOG_LINES)
        (lines.foldl addLogLine (freshEntry mac src)).logCount i hi
    rw [hring] at hm
    have hsub : lastN SERVER_LOG_LINES (lines.map (truncTo 127)) ⊆
        lines.map (truncTo 127) := by
      unfold lastN
      exact List.drop_subset _ _
    obtain ⟨l0, hl0, hl0e⟩ := List.mem_map.1 (hsub hm)
    rw [← hl0e]
    constructor
    · have hln : l0 ≠ [] := hne l0 hl0
      rcases l0 with _ | ⟨c, cs⟩
      · exact absurd rfl hln
      · simp [truncTo]
    · simp [truncTo]
  have hcoll := collectLogs_all (lines.foldl addLogLine (freshEntry mac src)).logs
    outbuflen (lines.foldl addLogLine (freshEntry mac src)).logCount
    (((lines.foldl addLogLine (freshEntry mac src)).logHead + SERVER_LOG_LINES -
      (lines.foldl addLogLine (freshEntry mac src)).logCount) % SERVER_LOG_LINES)
    0 hok (by rw [hc64]; omega)
  rw [hcoll]
  have : ringSeg (lines.foldl addLogLine (freshEntry mac src)).logs
      (((lines.foldl addLogLine (freshEntry mac src)).logHead + SERVER_LOG_LINES -
        (lines.foldl addLogLine (freshEntry mac src)).logCount) % SERVER_LOG_LINES)
      (lines.foldl addLogLine (freshEntry mac src)).logCount =
      ringOf (lines.foldl addLogLine (freshEntry mac src)) := rfl
  rw [this, hring]

/-- Witness for C8: after appending 100 one-byte lines to a fresh session,
the ring holds exactly 64 entries and the query returns the last 64
lines. -/
theorem gateway_ring_buffer_witness :
    (64 < (List.replicate 100 (['x'] : CStr)).length) ∧
    (8256 < 9000) ∧
    (((List.replicate 100 (['x'] : CStr)).foldl addLogLine
        (freshEntry "m1".toList ⟨1, 1⟩)).logCount = SERVER_LOG_LINES ∧
      (∀ l ∈ ((List.replicate 100 (['x'] : CStr)).foldl addLogLine
        (freshEntry "m1".toList ⟨1, 1⟩)).logs, l.length ≤ 127) ∧
      server_get_logs_for_mac
          [(List.replicate 100 (['x'] : CStr)).foldl addLogLine
            (freshEntry "m1".toList ⟨1, 1⟩)] "m1".toList 9000 =
        some (joinNL (lastN SERVER_LOG_LINES
          ((List.replicate 100 (['x'] : CStr)).map (truncTo 127))))) :=
  ⟨by decide, by decide,
   gateway_ring_buffer "m1".toList ⟨1, 1⟩ (List.replicate 100 (['x'] : CStr)) 9000
     (by decide) (by decide) (by decide)⟩

